import Mathlib

/-!
JSMon (Go edition): the poll / fingerprint / diff / notify pipeline.

A shallow embedding of the Go sources

* `internal/storage/storage.go`   (history ledger, state file, content store,
  fingerprint),
* `internal/fetcher/fetcher.go`   (retrying fetch, concurrent fan-in, URL
  validation),
* `internal/notifier/notifier.go` (multi-backend fan-out),
* `internal/differ/differ.go`     (HTML rendering of a diff),
* `cmd/jsmon/main.go`             (the processing loop and the end of the run),

followed by the theorems that settle the specification's claims about them.

Conventions of the embedding.

* A Go `string` is a sequence of bytes (`GoString`); `len` is `List.length`,
  `s[:n]` is `List.take n`, `s[n:]` is `List.drop n`, `+` is `++`.
* A Go `error` is `Option GoError`, with `none` for `nil`.
* Functions that mutate their argument return the new value; a function that
  can raise a run-time panic returns an `Option`, with `none` for the panic.
* Library functions outside the repository whose result the code only passes
  on (MD5, path joining, the beautifier, the diff engine, the HTTP client, the
  JSON codec on texts other than `null`) are parameters. The beautifier may
  panic, and nothing in the repository recovers from a panic.
-/

namespace JSMon

/-! ## Strings and errors -/

/-- A Go `byte`. -/
abbrev Byte := Fin 256

/-- A Go `string`: a sequence of bytes. -/
abbrev GoString := List Byte

/-- The bytes of an ASCII string literal of the source. -/
def str (s : String) : GoString := s.toList.map (fun c => Fin.ofNat c.toNat)

/-- A non-nil Go `error` value: either a plain message (`errors.New`,
`fmt.Errorf` without `%w`) or a message wrapping one other error
(`fmt.Errorf` with one `%w`). -/
inductive GoError where
  | errorString (s : GoString)
  | wrapError (msg : GoString) (err : GoError)
  deriving DecidableEq

/-- The method `Error()`. -/
def GoError.Error : GoError → GoString
  | .errorString s => s
  | .wrapError msg _ => msg

/-- The method `Unwrap()` as `errors.Unwrap` sees it. -/
def GoError.Unwrap : GoError → Option GoError
  | .errorString _ => none
  | .wrapError _ err => some err

/-- The call `fmt.Errorf(pre + "%w", err)`: the text before the verb is `pre`.
With a nil operand the verb prints `%!w(<nil>)` and nothing is wrapped. -/
def Errorf_w (pre : GoString) (err : Option GoError) : GoError :=
  match err with
  | some e => .wrapError (pre ++ e.Error) e
  | none => .errorString (pre ++ str "%!w(<nil>)")

/-! ## internal/storage: the history ledger -/

/-- The type `EndpointState`, a `map[string][]string`. A map value is either the
nil map or an allocated table; a slice is a list (the nil slice is `[]`). -/
inductive EndpointState where
  | nilMap
  | table (m : GoString → Option (List GoString))

/-- The two-value index expression `hashes, exists := state[endpoint]`,
with `none` when `exists` is false. Reading a nil map finds no key. -/
def EndpointState.index : EndpointState → GoString → Option (List GoString)
  | .nilMap, _ => none
  | .table m, k => m k

/-- The one-value index expression `state[endpoint]`: the zero value (the nil
slice) for a missing key. -/
def EndpointState.read (state : EndpointState) (k : GoString) : List GoString :=
  (state.index k).getD []

/-- The assignment `state[endpoint] = v`. Assigning to an entry of the nil map
is a run-time panic (`none`). -/
def EndpointState.assign : EndpointState → GoString → List GoString → Option EndpointState
  | .nilMap, _, _ => none
  | .table m, k, v => some (.table (fun k2 => if k2 = k then some v else m k2))

/-- The type `Storage`. -/
structure Storage where
  stateFile : GoString
  downloadsDir : GoString

/-- The method `GetPreviousHash`: the most recent hash of an endpoint, or the
empty string. -/
def Storage.GetPreviousHash (_s : Storage) (state : EndpointState) (endpoint : GoString) :
    GoString :=
  match state.index endpoint with
  | none => []
  | some hashes =>
    if hashes.length = 0 then []
    else hashes.getD (hashes.length - 1) []

/-- The method `AddHash`: `state[endpoint] = append(state[endpoint], hash)`. -/
def Storage.AddHash (_s : Storage) (state : EndpointState) (endpoint hash : GoString) :
    Option EndpointState :=
  state.assign endpoint (state.read endpoint ++ [hash])

/-- Successive `AddHash` calls for one endpoint, one per fingerprint of `fs`, in
order; a panic of one call ends the sequence. -/
def Storage.AddHashes (s : Storage) :
    EndpointState → GoString → List GoString → Option EndpointState
  | state, _, [] => some state
  | state, endpoint, f :: fs =>
    match s.AddHash state endpoint f with
    | none => none
    | some state2 => Storage.AddHashes s state2 endpoint fs

/-- A history in which one endpoint has the empty string as its only recorded
fingerprint (the state file `\x7b"a": [""]\x7d`). -/
def stateEmptyFingerprint : EndpointState :=
  .table (fun k => if k = str "a" then some [[]] else none)

/-- A history with two endpoints, one of them with two recorded fingerprints. -/
def stateTwoEndpoints : EndpointState :=
  .table (fun k =>
    if k = str "https://a.example/app.js" then some [str "0cc175b9c0", str "92eb5ffee6"]
    else if k = str "https://b.example/lib.js" then some [str "4a8a08f09d"]
    else none)

/-! ## internal/storage: the content store -/

/-- The part of the file system the store touches: the regular files by path,
and for each path the error, if any, with which the operating system answers an
attempt to write it (missing directory, permissions, invalid name). -/
structure FileSystem where
  files : GoString → Option GoString
  writeErr : GoString → Option GoError

/-- The function `os.WriteFile(name, data, perm)`: on success the file holds
exactly `data`; a refused write leaves the files as they were. -/
def FileSystem.WriteFile (fs : FileSystem) (name data : GoString) :
    Option GoError × FileSystem :=
  match fs.writeErr name with
  | some e => (some e, fs)
  | none => (none, { fs with files := fun p => if p = name then some data else fs.files p })

/-- The function `os.ReadFile(name)`. -/
def FileSystem.ReadFile (fs : FileSystem) (name : GoString) : GoString × Option GoError :=
  match fs.files name with
  | some data => (data, none)
  | none => ([], some (.errorString (str "open " ++ name ++ str ": no such file or directory")))

/-- The call `os.Stat(name)` followed by `info.Size()`: the length of the file
in bytes. -/
def FileSystem.StatSize (fs : FileSystem) (name : GoString) : Int × Option GoError :=
  match fs.files name with
  | some data => ((data.length : Int), none)
  | none => (0, some (.errorString (str "stat " ++ name ++ str ": no such file or directory")))

/-- The method `SaveEndpointContent`; `Join` is `filepath.Join`. -/
def Storage.SaveEndpointContent (Join : GoString → GoString → GoString) (s : Storage)
    (fs : FileSystem) (hash content : GoString) : Option GoError × FileSystem :=
  let filePath := Join s.downloadsDir hash
  match fs.WriteFile filePath content with
  | (some err, fs2) => (some (Errorf_w (str "failed to save endpoint content: ") (some err)), fs2)
  | (none, fs2) => (none, fs2)

/-- The method `LoadEndpointContent`. -/
def Storage.LoadEndpointContent (Join : GoString → GoString → GoString) (s : Storage)
    (fs : FileSystem) (hash : GoString) : GoString × Option GoError :=
  let filePath := Join s.downloadsDir hash
  match fs.ReadFile filePath with
  | (_, some err) => ([], some (Errorf_w (str "failed to load endpoint content: ") (some err)))
  | (data, none) => (data, none)

/-- The method `GetFileSize`. -/
def Storage.GetFileSize (Join : GoString → GoString → GoString) (s : Storage)
    (fs : FileSystem) (hash : GoString) : Int × Option GoError :=
  let filePath := Join s.downloadsDir hash
  match fs.StatSize filePath with
  | (_, some err) => (0, some (Errorf_w (str "failed to stat file: ") (some err)))
  | (size, none) => (size, none)

/-- A simple `filepath.Join` for a directory and a plain file name. -/
def joinPlain (dir name : GoString) : GoString := dir ++ str "/" ++ name

/-- The function `NewDefault` of package `storage`: the store on `jsmon.json`
and `downloads`. -/
def Storage.NewDefault : Storage := { stateFile := str "jsmon.json", downloadsDir := str "downloads" }

/-- An empty downloads directory in which every write succeeds. -/
def emptyFS : FileSystem := { files := fun _ => none, writeErr := fun _ => none }

/-! ## internal/storage: the fingerprint -/

/-- A Go `[16]byte`, the result type of `md5.Sum`. -/
structure Digest16 where
  bytes : List Byte
  size : bytes.length = 16

/-- The digit table `ldigits` of package `fmt`. -/
def ldigits : GoString := str "0123456789abcdef"

/-- The verb `%x` of `fmt.Sprintf` on a byte array (`fmtSbx` of package `fmt`):
for each byte `c` the two digits `ldigits[c>>4]`, `ldigits[c&0xF]`. -/
def Sprintf_x : List Byte → GoString
  | [] => []
  | c :: rest => ldigits.getD (c.val >>> 4) 0 :: ldigits.getD (c.val &&& 0xF) 0 :: Sprintf_x rest

/-- The function `HashContent`: `fmt.Sprintf("%x", md5.Sum([]byte(content)))[:10]`.
`md5Sum` is `crypto/md5.Sum`. The slice expression `[:10]` is `List.take 10`; it
is within range (no panic) exactly when the result has length 10. -/
def HashContent (md5Sum : GoString → Digest16) (content : GoString) : GoString :=
  (Sprintf_x (md5Sum content).bytes).take 10

/-- The specification's wording of one byte in lowercase hexadecimal: its
base-16 numeral, padded with a leading zero to two digits. -/
def hexByteSpec (c : Byte) : GoString :=
  let ds := (Nat.toDigits 16 c.val).map (fun d => (Fin.ofNat d.toNat : Byte))
  if ds.length < 2 then str "0" ++ ds else ds

/-- The specification's wording of the lowercase hexadecimal digest of a byte
sequence. -/
def hexLowerSpec : List Byte → GoString
  | [] => []
  | c :: rest => hexByteSpec c ++ hexLowerSpec rest

/-! ## internal/fetcher -/

/-- What the code reads of an `*http.Response`: the fields `StatusCode` and
`Status`, and the result of `io.ReadAll(resp.Body)`. -/
structure Response where
  StatusCode : Int
  Status : GoString
  Body : Except GoError GoString

/-- The type `Fetcher`. The field `client` is the behaviour of `client.Get`:
`client endpoint n` is what the `n`-th call (from 0) of one `Fetch` of
`endpoint` meets, an error or a response. The field `maxRetries` and the loop
counter of `Fetch` are Go `int`s, taken as integers: the counter grows by one
for each request made and stays far below the range of `int`. -/
structure Fetcher where
  client : GoString → Nat → Except GoError Response
  maxRetries : Int

/-- The function `NewDefault` of package `fetcher`, `New(30*time.Second, 3)`, on
a client of the given behaviour. -/
def Fetcher.NewDefault (client : GoString → Nat → Except GoError Response) : Fetcher :=
  { client := client, maxRetries := 3 }

/-- The values `Fetch` returns, and the number of `client.Get` calls it made. -/
structure FetchReturn where
  content : GoString
  err : Option GoError
  gets : Nat
  deriving DecidableEq

/-- The call `fmt.Errorf("HTTP %d: %s", resp.StatusCode, resp.Status)`. -/
def httpStatusError (resp : Response) : GoError :=
  .errorString (str "HTTP " ++ str (toString resp.StatusCode) ++ str ": " ++ resp.Status)

/-- The loop of `Fetch`, `for attempt := 0; attempt <= f.maxRetries; attempt++`,
from the loop test on, with the local variables `attempt` and `lastErr`, and
`gets` counting the `client.Get` calls made so far. The first argument bounds
the number of iterations; `none` means the bound was reached. The back-off
`time.Sleep` before a retry and the deferred `resp.Body.Close()` change no
value. -/
def Fetcher.FetchLoop (f : Fetcher) (endpoint : GoString) :
    Nat → Int → Option GoError → Nat → Option FetchReturn
  | 0, _, _, _ => none
  | fuel + 1, attempt, lastErr, gets =>
    if attempt ≤ f.maxRetries then
      match f.client endpoint gets with
      | .error err => f.FetchLoop endpoint fuel (attempt + 1) (some err) (gets + 1)
      | .ok resp =>
        if resp.StatusCode ≠ 200 then
          f.FetchLoop endpoint fuel (attempt + 1) (some (httpStatusError resp)) (gets + 1)
        else
          match resp.Body with
          | .error err => f.FetchLoop endpoint fuel (attempt + 1) (some err) (gets + 1)
          | .ok body => some { content := body, err := none, gets := gets + 1 }
    else
      some { content := [],
             err := some (Errorf_w
               (str "failed after " ++ str (toString (f.maxRetries + 1)) ++ str " attempts: ")
               lastErr),
             gets := gets }

/-- The method `Fetch`. The loop runs at most `maxRetries + 1` times and then
fails its test once, which bounds the iterations. -/
def Fetcher.Fetch (f : Fetcher) (endpoint : GoString) : Option FetchReturn :=
  f.FetchLoop endpoint ((f.maxRetries + 1).toNat + 1) 0 none 0

/-- The error `Fetch` records for an attempt it treats as failed, in the order
of its tests: the error of `client.Get`, else the status error when the status
code is not 200, else the error of reading the body; `none` for an attempt that
succeeds. -/
def attemptError : Except GoError Response → Option GoError
  | .error err => some err
  | .ok resp =>
    if resp.StatusCode ≠ 200 then some (httpStatusError resp)
    else
      match resp.Body with
      | .error err => some err
      | .ok _ => none

/-- The type `FetchResult`. -/
structure FetchResult where
  Endpoint : GoString
  Content : GoString
  Error : Option GoError
  deriving DecidableEq

/-- The goroutine `idx` of `FetchAll` run to its end on the shared slice:
`content, err := f.Fetch(ep)`, then `results[idx] = FetchResult{...}`. A fetch
that never returns keeps `wg.Wait()` from returning (`none`). -/
def Fetcher.fetchTask (f : Fetcher) (results : List FetchResult) (idx : Nat)
    (ep : GoString) : Option (List FetchResult) :=
  match f.Fetch ep with
  | none => none
  | some r => some (results.set idx { Endpoint := ep, Content := r.content, Error := r.err })

/-- The goroutines of `order` run one after the other on the shared slice. -/
def Fetcher.fetchTasks (f : Fetcher) (endpoints : List GoString) :
    List Nat → List FetchResult → Option (List FetchResult)
  | [], results => some results
  | idx :: rest, results =>
    match endpoints[idx]? with
    | none => f.fetchTasks endpoints rest results
    | some ep =>
      match f.fetchTask results idx ep with
      | none => none
      | some results2 => f.fetchTasks endpoints rest results2

/-- The method `FetchAll`: `results := make([]FetchResult, len(endpoints))`, one
goroutine per index, `wg.Wait()`, `return results`. The goroutines write the
shared slice in the order `order` in which they complete, which the scheduler
chooses; every goroutine completes once, so `order` is a permutation of the
indices. -/
def Fetcher.FetchAll (f : Fetcher) (endpoints : List GoString) (order : List Nat) :
    Option (List FetchResult) :=
  f.fetchTasks endpoints order
    (List.replicate endpoints.length { Endpoint := [], Content := [], Error := none })

/-- The `FetchResult` the goroutine of an endpoint stores: the endpoint with the
content and error its `Fetch` call returned. -/
def Fetcher.resultFor (f : Fetcher) (ep : GoString) : FetchResult :=
  match f.Fetch ep with
  | some r => { Endpoint := ep, Content := r.content, Error := r.err }
  | none => { Endpoint := ep, Content := [], Error := none }

/-- A server that answers every request with `201 Created` and the body `ok`. -/
def created201 : GoString → Nat → Except GoError Response :=
  fun _ _ => .ok { StatusCode := 201, Status := str "201 Created", Body := .ok (str "ok") }

/-- A server that refuses the first two connections, answers the third request
with `503`, and the fourth with `200 OK` and the body `var a=1;`. -/
def flakyThenOk : GoString → Nat → Except GoError Response :=
  fun _ n =>
    if n < 2 then .error (.errorString (str "connection refused"))
    else if n = 2 then
      .ok { StatusCode := 503, Status := str "503 Service Unavailable", Body := .ok [] }
    else .ok { StatusCode := 200, Status := str "200 OK", Body := .ok (str "var a=1;") }

/-- A server that refuses every connection. -/
def alwaysRefused : GoString → Nat → Except GoError Response :=
  fun _ _ => .error (.errorString (str "connection refused"))

/-! ## internal/notifier -/

/-- The type `ChangeNotification`. -/
structure ChangeNotification where
  Endpoint : GoString
  OldHash : GoString
  NewHash : GoString
  OldSize : Int
  NewSize : Int
  DiffHTML : GoString
  DiffContent : List Byte

/-- The interface `Notifier`. A backend acts on the outside world, of type `σ`:
`Notify` returns its error and the world after the call. -/
structure Notifier (σ : Type) where
  Notify : ChangeNotification → σ → Option GoError × σ
  Name : GoString

/-- The type `MultiNotifier`. -/
structure MultiNotifier (σ : Type) where
  notifiers : List (Notifier σ)

/-- The verb `%v` of package `fmt` on the elements of an `[]error`: each
element's `Error()` text, separated by one space. -/
def fmtErrorElems : List GoError → GoString
  | [] => []
  | [e] => e.Error
  | e :: e2 :: rest => e.Error ++ str " " ++ fmtErrorElems (e2 :: rest)

/-- The call `fmt.Errorf("notification errors: %v", errors)`. -/
def notificationErrors (errors : List GoError) : GoError :=
  .errorString (str "notification errors: " ++ (str "[" ++ fmtErrorElems errors ++ str "]"))

/-- The loop `for _, notifier := range m.notifiers` of `MultiNotifier.Notify`,
with the local variable `errors`. -/
def MultiNotifier.notifyLoop {σ : Type} (notification : ChangeNotification) :
    List (Notifier σ) → List GoError → σ → List GoError × σ
  | [], errors, w => (errors, w)
  | notifier :: rest, errors, w =>
    match notifier.Notify notification w with
    | (some err, w2) =>
      MultiNotifier.notifyLoop notification rest
        (errors ++ [Errorf_w (notifier.Name ++ str ": ") (some err)]) w2
    | (none, w2) => MultiNotifier.notifyLoop notification rest errors w2

/-- The method `MultiNotifier.Notify`. -/
def MultiNotifier.Notify {σ : Type} (m : MultiNotifier σ) (notification : ChangeNotification)
    (w : σ) : Option GoError × σ :=
  match MultiNotifier.notifyLoop notification m.notifiers [] w with
  | (errors, w2) =>
    if errors.length > 0 then (some (notificationErrors errors), w2)
    else (none, w2)

/-- What each backend of a list returns when the backends are called once each,
in order, on the world the one before left: the backend's name with its
error. -/
def calledInOrder {σ : Type} (notification : ChangeNotification) :
    List (Notifier σ) → σ → List (GoString × Option GoError)
  | [], _ => []
  | b :: rest, w =>
    (b.Name, (b.Notify notification w).1) ::
      calledInOrder notification rest (b.Notify notification w).2

/-- The tagged text of a failed backend, its name, a colon and a space, and its
error text; nothing for a backend that succeeded. -/
def failureTags : List (GoString × Option GoError) → List GoString
  | [] => []
  | (name, some err) :: rest => (name ++ str ": " ++ err.Error) :: failureTags rest
  | (_, none) :: rest => failureTags rest

/-- The wrapped error `fmt.Errorf("%s: %w", name, err)` of each failed backend
of a run, in order. -/
def failureErrors : List (GoString × Option GoError) → List GoError
  | [] => []
  | (name, some err) :: rest => Errorf_w (name ++ str ": ") (some err) :: failureErrors rest
  | (_, none) :: rest => failureErrors rest

/-- Texts joined by one space. -/
def joinSpace : List GoString → GoString
  | [] => []
  | [t] => t
  | t :: t2 :: rest => t ++ str " " ++ joinSpace (t2 :: rest)

/-- A backend that appends its name to a log of calls and returns a fixed
result. -/
def loggingBackend (name : GoString) (result : Option GoError) : Notifier (List GoString) :=
  { Notify := fun _ log => (result, log ++ [name]), Name := name }

/-- A notification about one changed endpoint. -/
def sampleNotification : ChangeNotification :=
  { Endpoint := str "https://a.example/app.js", OldHash := str "0cc175b9c0",
    NewHash := str "92eb5ffee6", OldSize := 8, NewSize := 8, DiffHTML := [],
    DiffContent := [] }

/-- Telegram fails, Slack succeeds, Discord fails. -/
def threeBackends : MultiNotifier (List GoString) :=
  { notifiers :=
      [loggingBackend (str "Telegram") (some (.errorString (str "timeout"))),
       loggingBackend (str "Slack") none,
       loggingBackend (str "Discord") (some (.errorString (str "HTTP 429")))] }

/-! ## internal/differ -/

/-- The type `diffmatchpatch.Operation`, with the three values a diff uses. -/
inductive Operation where
  | DiffDelete
  | DiffInsert
  | DiffEqual
  deriving DecidableEq

/-- The type `diffmatchpatch.Diff`; the field `Op` is the field `Type` of the
Go struct. -/
structure Diff where
  Op : Operation
  Text : GoString
  deriving DecidableEq

/-- What `html.EscapeString` writes for one byte: it replaces the five
characters `&`, the single quote, `<`, `>` and the double quote. -/
def escapeByte (c : Byte) : GoString :=
  if c = 38 then str "&amp;"
  else if c = 39 then str "&#39;"
  else if c = 60 then str "&lt;"
  else if c = 62 then str "&gt;"
  else if c = 34 then str "&#34;"
  else [c]

/-- The function `html.EscapeString`. -/
def EscapeString : GoString → GoString
  | [] => []
  | c :: rest => escapeByte c ++ EscapeString rest

/-- The call `strings.Split(s, "\n")`. -/
def splitLines : GoString → List GoString
  | [] => [[]]
  | c :: rest =>
    if c = 10 then [] :: splitLines rest
    else
      match splitLines rest with
      | [] => [[c]]
      | line :: lines => (c :: line) :: lines

/-- The first literal written by `generateHTMLFromDiffs`: the head of the page, its style sheet, and the opening of the column of the old version. -/
def htmlHead : GoString :=
  str (
    "<!DOCTYPE html>\n" ++
    "<html>\n" ++
    "<head>\n" ++
    "    <meta charset=\"UTF-8\">\n" ++
    "    <title>JSMon Diff</title>\n" ++
    "    <style>\n" ++
    "        body \x7b\n" ++
    "            font-family: 'Courier New', monospace;\n" ++
    "            font-size: 12px;\n" ++
    "            margin: 20px;\n" ++
    "            background-color: #f5f5f5;\n" ++
    "        \x7d\n" ++
    "        .container \x7b\n" ++
    "            display: flex;\n" ++
    "            gap: 20px;\n" ++
    "        \x7d\n" ++
    "        .column \x7b\n" ++
    "            flex: 1;\n" ++
    "            background: white;\n" ++
    "            padding: 10px;\n" ++
    "            border: 1px solid #ddd;\n" ++
    "            overflow-x: auto;\n" ++
    "        \x7d\n" ++
    "        .header \x7b\n" ++
    "            font-weight: bold;\n" ++
    "            margin-bottom: 10px;\n" ++
    "            padding: 5px;\n" ++
    "            background: #e0e0e0;\n" ++
    "        \x7d\n" ++
    "        .line \x7b\n" ++
    "            padding: 2px 5px;\n" ++
    "            white-space: pre-wrap;\n" ++
    "            word-break: break-all;\n" ++
    "        \x7d\n" ++
    "        .delete \x7b\n" ++
    "            background-color: #ffcccc;\n" ++
    "            color: #cc0000;\n" ++
    "        \x7d\n" ++
    "        .insert \x7b\n" ++
    "            background-color: #ccffcc;\n" ++
    "            color: #00cc00;\n" ++
    "        \x7d\n" ++
    "        .equal \x7b\n" ++
    "            color: #333;\n" ++
    "        \x7d\n" ++
    "        pre \x7b\n" ++
    "            margin: 0;\n" ++
    "            font-family: inherit;\n" ++
    "        \x7d\n" ++
    "    </style>\n" ++
    "</head>\n" ++
    "<body>\n" ++
    "    <h1>JSMon Diff Report</h1>\n" ++
    "    <div class=\"container\">\n" ++
    "        <div class=\"column\">\n" ++
    "            <div class=\"header\">Old Version</div>\n" ++
    "            <div class=\"content\">\n")

/-- The literal written between the two columns. -/
def htmlBetweenColumns : GoString :=
  str (
    "            </div>\n" ++
    "        </div>\n" ++
    "        <div class=\"column\">\n" ++
    "            <div class=\"header\">New Version</div>\n" ++
    "            <div class=\"content\">\n")

/-- The literal written after the column of the new version: the opening of the changes summary. -/
def htmlSummaryOpen : GoString :=
  str (
    "            </div>\n" ++
    "        </div>\n" ++
    "    </div>\n" ++
    "    <div style=\"margin-top: 30px;\">\n" ++
    "        <h2>Changes Summary</h2>\n" ++
    "        <div style=\"background: white; padding: 15px; border: 1px solid #ddd;\">\n")

/-- The last literal written: the end of the page. -/
def htmlFoot : GoString :=
  str (
    "\n" ++
    "        </div>\n" ++
    "    </div>\n" ++
    "</body>\n" ++
    "</html>")

/-- The type `Differ`. -/
structure Differ where

/-- The loops `for _, line := range oldLines` and `for _, line := range newLines`:
one `div` per line, the line escaped. -/
def writeLines : List GoString → GoString
  | [] => []
  | line :: rest =>
    (str "                <div class=\"line\"><pre>" ++ EscapeString line ++
      str "</pre></div>\n") ++ writeLines rest

/-- The body of the loop `for _, diff := range diffs`: what one diff segment
adds to the changes summary. -/
def writeDiff (diff : Diff) : GoString :=
  let text := EscapeString diff.Text
  match diff.Op with
  | .DiffDelete => str "            <span class=\"delete\">" ++ text ++ str "</span>"
  | .DiffInsert => str "            <span class=\"insert\">" ++ text ++ str "</span>"
  | .DiffEqual =>
    let text :=
      if text.length > 100 then text.take 50 ++ str "..." ++ text.drop (text.length - 50)
      else text
    str "            <span class=\"equal\">" ++ text ++ str "</span>"

/-- The loop `for _, diff := range diffs`: the changes summary. -/
def writeDiffs : List Diff → GoString
  | [] => []
  | diff :: rest => writeDiff diff ++ writeDiffs rest

/-- The method `generateHTMLFromDiffs`: the writes to `buf`, in order. -/
def Differ.generateHTMLFromDiffs (_d : Differ) (diffs : List Diff)
    (oldContent newContent : GoString) : GoString :=
  htmlHead ++ writeLines (splitLines oldContent) ++ htmlBetweenColumns ++
    writeLines (splitLines newContent) ++ htmlSummaryOpen ++ writeDiffs diffs ++ htmlFoot

/-- The method `GenerateHTMLDiff`. `Beautify` is `jsbeautifier.Beautify` with
its default options: its two results, or `none` when the library panics (the
repository has no `recover`, so the panic ends the process). `DiffMain` is
`dmp.DiffMain(_, _, false)`. The result is `none` when a call of `Beautify`
panics; otherwise the page with a nil error. -/
def Differ.GenerateHTMLDiff (d : Differ)
    (Beautify : GoString → Option (GoString × Option GoError))
    (DiffMain : GoString → GoString → List Diff) (oldContent newContent : GoString) :
    Option (GoString × Option GoError) :=
  match Beautify oldContent with
  | none => none
  | some r1 =>
    let oldBeautified :=
      match r1 with
      | (_, some _) => oldContent
      | (b, none) => b
    match Beautify newContent with
    | none => none
    | some r2 =>
      let newBeautified :=
        match r2 with
        | (_, some _) => newContent
        | (b, none) => b
      let diffs := DiffMain oldBeautified newBeautified
      some (d.generateHTMLFromDiffs diffs oldBeautified newBeautified, none)

/-! ### The rendering of an equal segment, in the words of the claim -/

/-- A continuation byte of a UTF-8 encoded character (`10xxxxxx`); every other
byte of a well-formed text begins a character. -/
def isContinuation (b : Byte) : Bool := 0x80 ≤ b.val && b.val < 0xC0

/-- The number of characters of a UTF-8 text: the bytes that begin one. -/
def charCount (t : GoString) : Nat := (t.filter (fun b => !isContinuation b)).length

/-- The first `n` characters of a UTF-8 text: the bytes in front of the one that
begins character `n + 1`. -/
def takeChars : Nat → GoString → GoString
  | _, [] => []
  | n, b :: rest =>
    if isContinuation b then b :: takeChars n rest
    else
      match n with
      | 0 => []
      | k + 1 => b :: takeChars k rest

/-- The last `n` characters of a UTF-8 text: what follows its first
`charCount t - n` characters. -/
def lastChars (n : Nat) (t : GoString) : GoString :=
  t.drop (takeChars (charCount t - n) t).length

/-- The claim's wording of the text shown for an equal segment: the segment in
full, escaped, when it has at most 100 characters; otherwise its first 50
characters escaped, an ellipsis, and its last 50 characters escaped. -/
def equalTextSpec (t : GoString) : GoString :=
  if charCount t > 100 then
    EscapeString (takeChars 50 t) ++ str "..." ++ EscapeString (lastChars 50 t)
  else EscapeString t

/-- The three outcomes of the driver's decision for a successful fetch result. -/
inductive Classification where
  | Enrolled
  | Unchanged
  | Changed
  deriving DecidableEq, Repr

/-- The decision of `main` for a successful fetch result (`main.go`, the chain
`if prevHash == "" ... if prevHash == newHash ...`): the branch taken. -/
def classify (prevHash newHash : GoString) : Classification :=
  if prevHash = [] then .Enrolled
  else if prevHash = newHash then .Unchanged
  else .Changed

/-! ## cmd/jsmon: the processing loop -/

/-- What the loop of `main` is given before it starts: the library functions
(`md5.Sum`, `filepath.Join`, `jsbeautifier.Beautify`, `dmp.DiffMain`), the
store, the differ, and the multi-notifier built from the configured backends.
`Beautify t` is `none` when the library panics on the text `t`. -/
structure Driver (σ : Type) where
  md5Sum : GoString → Digest16
  Join : GoString → GoString → GoString
  Beautify : GoString → Option (GoString × Option GoError)
  DiffMain : GoString → GoString → List Diff
  store : Storage
  differ : Differ
  multiNotifier : MultiNotifier σ

/-- What the loop of `main` changes: the history `state` (in memory), the files
of the store, the world the backends act on, and the three counters. -/
structure RunState (σ : Type) where
  state : EndpointState
  fs : FileSystem
  world : σ
  changesDetected : Int
  newEndpoints : Int
  errors : Int

/-- The body of the loop `for _, result := range results` of `main`, for one
result (the messages printed are left out); `none` is a run-time panic, of
`AddHash` on a nil map or of the beautifier inside `GenerateHTMLDiff`. Each
`continue` of the source is the return of the run state reached. -/
def Driver.processResult {σ : Type} (d : Driver σ) (rs : RunState σ) (result : FetchResult) :
    Option (RunState σ) :=
  match result.Error with
  | some _ => some { rs with errors := rs.errors + 1 }
  | none =>
    let newHash := HashContent d.md5Sum result.Content
    let prevHash := d.store.GetPreviousHash rs.state result.Endpoint
    match classify prevHash newHash with
    | .Enrolled =>
      match d.store.AddHash rs.state result.Endpoint newHash with
      | none => none
      | some state2 =>
        match d.store.SaveEndpointContent d.Join rs.fs newHash result.Content with
        | (some _, fs2) => some { rs with state := state2, fs := fs2, errors := rs.errors + 1 }
        | (none, fs2) =>
          some { rs with state := state2, fs := fs2, newEndpoints := rs.newEndpoints + 1 }
    | .Unchanged => some rs
    | .Changed =>
      let rs1 := { rs with changesDetected := rs.changesDetected + 1 }
      match d.store.SaveEndpointContent d.Join rs1.fs newHash result.Content with
      | (some _, fs2) => some { rs1 with fs := fs2, errors := rs1.errors + 1 }
      | (none, fs2) =>
        match d.store.AddHash rs1.state result.Endpoint newHash with
        | none => none
        | some state2 =>
          let rs2 := { rs1 with fs := fs2, state := state2 }
          match d.store.LoadEndpointContent d.Join rs2.fs prevHash with
          | (_, some _) => some { rs2 with errors := rs2.errors + 1 }
          | (oldContent, none) =>
            match d.store.GetFileSize d.Join rs2.fs prevHash with
            | (_, some _) => some { rs2 with errors := rs2.errors + 1 }
            | (oldSize, none) =>
              match d.store.GetFileSize d.Join rs2.fs newHash with
              | (_, some _) => some { rs2 with errors := rs2.errors + 1 }
              | (newSize, none) =>
                match d.differ.GenerateHTMLDiff d.Beautify d.DiffMain oldContent result.Content with
                | none => none
                | some (_, some _) => some { rs2 with errors := rs2.errors + 1 }
                | some (diffHTML, none) =>
                  let notification : ChangeNotification :=
                    { Endpoint := result.Endpoint, OldHash := prevHash, NewHash := newHash,
                      OldSize := oldSize, NewSize := newSize, DiffHTML := diffHTML,
                      DiffContent := [] }
                  match d.multiNotifier.Notify notification rs2.world with
                  | (some _, w2) => some { rs2 with world := w2, errors := rs2.errors + 1 }
                  | (none, w2) => some { rs2 with world := w2 }

/-- The loop `for _, result := range results` of `main`. -/
def Driver.processResults {σ : Type} (d : Driver σ) :
    RunState σ → List FetchResult → Option (RunState σ)
  | rs, [] => some rs
  | rs, result :: rest =>
    match d.processResult rs result with
    | none => none
    | some rs2 => d.processResults rs2 rest

/-- A stand-in for `md5.Sum` in the examples: the last 16 bytes of the content
in reverse order, padded with zero bytes. -/
def digestStub (content : GoString) : Digest16 :=
  { bytes := (content.reverse ++ List.replicate 16 0).take 16, size := by simp }

/-- A driver for the examples: the stand-in digest, plain path joining, a
beautifier that returns its input, a diff engine that deletes the old text and
inserts the new one, the default store and three logging backends. -/
def exampleDriver : Driver (List GoString) :=
  { md5Sum := digestStub,
    Join := joinPlain,
    Beautify := fun t => some (t, none),
    DiffMain := fun a b => [{ Op := .DiffDelete, Text := a }, { Op := .DiffInsert, Text := b }],
    store := Storage.NewDefault,
    differ := {},
    multiNotifier := threeBackends }

/-- The run state at the start of a first run: an empty history, an empty
store. -/
def firstRun : RunState (List GoString) :=
  { state := .table (fun _ => none), fs := emptyFS, world := [],
    changesDetected := 0, newEndpoints := 0, errors := 0 }

/-- A successful fetch of `var a=2;` from the same endpoint. -/
def fetchedA2 : FetchResult :=
  { Endpoint := str "https://a.example/app.js", Content := str "var a=2;", Error := none }

/-- A successful fetch of `var a=1;`. -/
def fetchedA1 : FetchResult :=
  { Endpoint := str "https://a.example/app.js", Content := str "var a=1;", Error := none }

/-- White space of a JSON text: space, tab, newline, carriage return. -/
def jsonSpace (c : Byte) : Bool := c = 32 || c = 9 || c = 10 || c = 13

/-- A JSON text without the white space around it. -/
def jsonTrim (data : GoString) : GoString :=
  ((data.dropWhile jsonSpace).reverse.dropWhile jsonSpace).reverse

/-- The call `json.Unmarshal(data, &state)` on the fresh `var state EndpointState`,
with the error and the value of `state` after the call. The JSON value `null`
unmarshals into a map by setting it to nil, without error; `decode` is what
package `encoding/json` does with any other text: an error, or the table of a
JSON object. -/
def Unmarshal (decode : GoString → Except GoError (GoString → Option (List GoString)))
    (data : GoString) : Option GoError × EndpointState :=
  if jsonTrim data = str "null" then (none, .nilMap)
  else
    match decode data with
    | .error err => (some err, .nilMap)
    | .ok m => (none, .table m)

/-- The call `json.MarshalIndent(state, "", "  ")`: the text `null` for the nil
map; `encode` is the text package `encoding/json` writes for a table. -/
def MarshalIndent (encode : (GoString → Option (List GoString)) → GoString) :
    EndpointState → GoString × Option GoError
  | .nilMap => (str "null", none)
  | .table m => (encode m, none)

/-- The method `LoadState`. -/
def Storage.LoadState (decode : GoString → Except GoError (GoString → Option (List GoString)))
    (s : Storage) (fs : FileSystem) : EndpointState × Option GoError :=
  match fs.ReadFile s.stateFile with
  | (_, some err) => (.nilMap, some (Errorf_w (str "failed to read state file: ") (some err)))
  | (data, none) =>
    match Unmarshal decode data with
    | (some err, _) =>
      (.nilMap, some (Errorf_w (str "failed to parse state file: ") (some err)))
    | (none, state) => (state, none)

/-- The method `SaveState`. -/
def Storage.SaveState (encode : (GoString → Option (List GoString)) → GoString)
    (s : Storage) (fs : FileSystem) (state : EndpointState) : Option GoError × FileSystem :=
  match MarshalIndent encode state with
  | (_, some err) => (some (Errorf_w (str "failed to marshal state: ") (some err)), fs)
  | (data, none) =>
    match fs.WriteFile s.stateFile data with
    | (some err, fs2) => (some (Errorf_w (str "failed to write state file: ") (some err)), fs2)
    | (none, fs2) => (none, fs2)

/-! ## cmd/jsmon: the run -/

/-- How the process ends: `log.Fatalf` with an error, or an exit status. -/
inductive Exit where
  | fatal (err : GoError)
  | status (code : Int)
  deriving DecidableEq

/-- The end of `main`, after the loop: `store.SaveState(state)`, fatal on error,
then exit status 1 when `errors > 0` and 0 otherwise. The history is saved
whatever the value of `errors`. -/
def Driver.saveAndExit {σ : Type} (d : Driver σ)
    (encode : (GoString → Option (List GoString)) → GoString) (rs : RunState σ) :
    Exit × FileSystem :=
  match d.store.SaveState encode rs.fs rs.state with
  | (some err, fs2) => (.fatal err, fs2)
  | (none, fs2) => (if rs.errors > 0 then .status 1 else .status 0, fs2)

/-- The function `main` from `store.LoadState()` on, for the endpoints loaded
and the completion order of the fetches: the way the process ends, the files
and the world it leaves. `none` is a run-time panic. -/
def Driver.run {σ : Type} (d : Driver σ)
    (decode : GoString → Except GoError (GoString → Option (List GoString)))
    (encode : (GoString → Option (List GoString)) → GoString)
    (f : Fetcher) (endpoints : List GoString) (order : List Nat)
    (fs : FileSystem) (world : σ) : Option (Exit × FileSystem × σ) :=
  match d.store.LoadState decode fs with
  | (_, some err) => some (.fatal err, fs, world)
  | (state, none) =>
    if endpoints.length = 0 then some (.status 0, fs, world)
    else
      match f.FetchAll endpoints order with
      | none => none
      | some results =>
        match d.processResults
            { state := state, fs := fs, world := world,
              changesDetected := 0, newEndpoints := 0, errors := 0 } results with
        | none => none
        | some rs =>
          match d.saveAndExit encode rs with
          | (e, fs2) => some (e, fs2, rs.world)

/-- In the changed path, after the new blob is written and the history updated:
one of the later steps (loading the old content, the two size lookups, the diff,
the notification) returns an error. -/
def Driver.laterStepFails {σ : Type} (d : Driver σ) (rs : RunState σ) (result : FetchResult) :
    Prop :=
  let newHash := HashContent d.md5Sum result.Content
  let prevHash := d.store.GetPreviousHash rs.state result.Endpoint
  let fs2 := (d.store.SaveEndpointContent d.Join rs.fs newHash result.Content).2
  (d.store.LoadEndpointContent d.Join fs2 prevHash).2 ≠ none ∨
  (d.store.GetFileSize d.Join fs2 prevHash).2 ≠ none ∨
  (d.store.GetFileSize d.Join fs2 newHash).2 ≠ none ∨
  (∃ (page : GoString) (err : GoError),
    d.differ.GenerateHTMLDiff d.Beautify d.DiffMain
      (d.store.LoadEndpointContent d.Join fs2 prevHash).1 result.Content =
      some (page, some err)) ∨
  (∃ page : GoString,
    d.differ.GenerateHTMLDiff d.Beautify d.DiffMain
      (d.store.LoadEndpointContent d.Join fs2 prevHash).1 result.Content =
      some (page, none) ∧
    (d.multiNotifier.Notify
      { Endpoint := result.Endpoint, OldHash := prevHash, NewHash := newHash,
        OldSize := (d.store.GetFileSize d.Join fs2 prevHash).1,
        NewSize := (d.store.GetFileSize d.Join fs2 newHash).1,
        DiffHTML := page, DiffContent := [] } rs.world).1 ≠ none)

/-- In the changed path, after the new blob is written and the history updated:
the old content is loaded and both sizes are found, and the beautifier panics
on the old or on the new content, inside `GenerateHTMLDiff`. -/
def Driver.diffPanics {σ : Type} (d : Driver σ) (rs : RunState σ) (result : FetchResult) :
    Prop :=
  let newHash := HashContent d.md5Sum result.Content
  let prevHash := d.store.GetPreviousHash rs.state result.Endpoint
  let fs2 := (d.store.SaveEndpointContent d.Join rs.fs newHash result.Content).2
  (d.store.LoadEndpointContent d.Join fs2 prevHash).2 = none ∧
  (d.store.GetFileSize d.Join fs2 prevHash).2 = none ∧
  (d.store.GetFileSize d.Join fs2 newHash).2 = none ∧
  (d.Beautify (d.store.LoadEndpointContent d.Join fs2 prevHash).1 = none ∨
    d.Beautify result.Content = none)

/-- A store whose state file holds the JSON text `null`. -/
def nullStateFS : FileSystem :=
  { files := fun p => if p = str "jsmon.json" then some (str "null") else none,
    writeErr := fun _ => none }

/-- A store in which no file can be written. -/
def readOnlyFS : FileSystem :=
  { files := fun _ => none,
    writeErr := fun _ => some (.errorString (str "permission denied")) }

/-- The run state of a second run: the endpoint has the fingerprint of
`var a=1;` in its history and the blob in the store. -/
def secondRun : RunState (List GoString) :=
  { state := .table (fun k =>
      if k = str "https://a.example/app.js" then some [str "3b313d6120"] else none),
    fs := { files := fun p =>
              if p = str "downloads/3b313d6120" then some (str "var a=1;") else none,
            writeErr := fun _ => none },
    world := [], changesDetected := 0, newEndpoints := 0, errors := 0 }

/-- A stand-in for the JSON decoder in the examples: every text other than
`null` is a syntax error. -/
def decodeStub : GoString → Except GoError (GoString → Option (List GoString)) :=
  fun _ => .error (.errorString (str "invalid character"))

/-- A stand-in for the JSON encoder in the examples. -/
def encodeStub : (GoString → Option (List GoString)) → GoString :=
  fun _ => str "\x7b\x7d"

/-- The run state at the start of a first run on a store in which no file can
be written. -/
def firstRunReadOnly : RunState (List GoString) :=
  { state := .table (fun _ => none), fs := readOnlyFS, world := [],
    changesDetected := 0, newEndpoints := 0, errors := 0 }

/-- A text cut at every comma. -/
def splitComma : GoString → List GoString
  | [] => [[]]
  | c :: rest =>
    if c = 44 then [] :: splitComma rest
    else
      match splitComma rest with
      | [] => [[c]]
      | part :: parts => (c :: part) :: parts

/-- Texts joined by commas. -/
def joinComma : List GoString → GoString
  | [] => []
  | [t] => t
  | t :: t2 :: rest => t ++ str "," ++ joinComma (t2 :: rest)

/-- A stand-in for the JSON encoder in the examples, for histories of the one
endpoint of the examples: its fingerprints, separated by commas. -/
def encodeOne : (GoString → Option (List GoString)) → GoString :=
  fun m => joinComma ((m (str "https://a.example/app.js")).getD [])

/-- The decoder that goes with `encodeOne`. -/
def decodeOne : GoString → Except GoError (GoString → Option (List GoString)) :=
  fun data => .ok (fun k =>
    if k = str "https://a.example/app.js" then some (splitComma data) else none)

/-- A regular expression of package `regexp`, as far as the pattern of
`IsValidURL` needs it, on the bytes of the text: the empty expression, one byte
of a class, a literal byte sequence, concatenation, alternation `a|b`, and
repetition `a+`. -/
inductive Regex where
  | empty
  | cls (p : Byte → Bool)
  | lit (t : GoString)
  | cat (a b : Regex)
  | alt (a b : Regex)
  | plus (a : Regex)

/-- The expression `a?`. -/
def Regex.opt (a : Regex) : Regex := .alt a .empty

/-- The expression `a{n}`. -/
def Regex.times (a : Regex) : Nat → Regex
  | 0 => .empty
  | n + 1 => .cat a (Regex.times a n)

/-- The expression `a{0,n}`. -/
def Regex.upTo (a : Regex) : Nat → Regex
  | 0 => .empty
  | n + 1 => .opt (.cat a (Regex.upTo a n))

/-- The expression `a{lo,hi}`. -/
def Regex.rep (a : Regex) (lo hi : Nat) : Regex := .cat (a.times lo) (a.upTo (hi - lo))

/-- The expression `a{n,}`. -/
def Regex.atLeast (a : Regex) (n : Nat) : Regex := .cat (a.times (n - 1)) (.plus a)

/-- The ends of the matches of `a+` at the start of a text, given the ends of
the matches of `a`: one match of `a`, or a non-empty match of `a` followed by a
match of `a+`. The first argument bounds the number of repetitions. -/
def plusEnds (f : GoString → List Nat) : Nat → GoString → List Nat
  | 0, _ => []
  | fuel + 1, s =>
    (f s).flatMap (fun i =>
      i :: (if i = 0 then [] else (plusEnds f fuel (s.drop i)).map (fun j => i + j)))

/-- Matching at the start of a text: the lengths of the initial segments of `s`
that the expression matches. -/
def Regex.ends : Regex → GoString → List Nat
  | .empty, _ => [0]
  | .cls p, s =>
    match s with
    | [] => []
    | c :: _ => if p c then [1] else []
  | .lit t, s => if s.take t.length = t then [t.length] else []
  | .cat a b, s => (a.ends s).flatMap (fun i => (b.ends (s.drop i)).map (fun j => i + j))
  | .alt a b, s => a.ends s ++ b.ends s
  | .plus a, s => plusEnds (fun t => a.ends t) (s.length + 1) s

/-- A match of the whole text, as `regexp.MatchString` reports it for a pattern
between `^` and `$` (without the flag `m` these are the start and the end of
the text). -/
def Regex.MatchString (r : Regex) (s : GoString) : Bool := decide (s.length ∈ r.ends s)

/-- The language of an expression: the texts it matches. -/
inductive Regex.Matches : Regex → GoString → Prop where
  | empty : Regex.Matches .empty []
  | cls (p : Byte → Bool) (c : Byte) (h : p c = true) : Regex.Matches (.cls p) [c]
  | lit (t : GoString) : Regex.Matches (.lit t) t
  | cat (a b : Regex) (u v : GoString) (ha : Regex.Matches a u) (hb : Regex.Matches b v) :
      Regex.Matches (.cat a b) (u ++ v)
  | altLeft (a b : Regex) (u : GoString) (ha : Regex.Matches a u) : Regex.Matches (.alt a b) u
  | altRight (a b : Regex) (u : GoString) (hb : Regex.Matches b u) : Regex.Matches (.alt a b) u
  | plusOne (a : Regex) (u : GoString) (ha : Regex.Matches a u) : Regex.Matches (.plus a) u
  | plusMore (a : Regex) (u v : GoString) (ha : Regex.Matches a u)
      (hb : Regex.Matches (.plus a) v) : Regex.Matches (.plus a) (u ++ v)

/-- An upper-case ASCII letter. -/
def isUpper (c : Byte) : Bool := 65 ≤ c.val && c.val ≤ 90

/-- A lower-case ASCII letter. -/
def isLower (c : Byte) : Bool := 97 ≤ c.val && c.val ≤ 122

/-- An ASCII letter. -/
def isLetter (c : Byte) : Bool := isUpper c || isLower c

/-- An ASCII digit, the class `\d`. -/
def isDigit (c : Byte) : Bool := 48 ≤ c.val && c.val ≤ 57

/-- The class `\s` of package `regexp`: tab, newline, form feed, carriage
return, space (`[\t\n\f\r ]`). -/
def isSpace (c : Byte) : Bool := c = 9 || c = 10 || c = 12 || c = 13 || c = 32

/-- The UTF-8 bytes of U+017F, the long s, which simple case folding identifies
with `s` and `S`. -/
def longS : GoString := [0xC5, 0xBF]

/-- The UTF-8 bytes of U+212A, the Kelvin sign, which simple case folding
identifies with `k` and `K`. -/
def kelvin : GoString := [0xE2, 0x84, 0xAA]

/-- A lower-case letter of the pattern under the flag `(?i)`: the letter, its
upper case, and for `s` and `k` the other member of its folding orbit. -/
def foldChar (c : Byte) : Regex :=
  if c = 115 then .alt (.cls (fun b => b = c || b = c - 32)) (.lit longS)
  else if c = 107 then .alt (.cls (fun b => b = c || b = c - 32)) (.lit kelvin)
  else .cls (fun b => b = c || b = c - 32)

/-- A lower-case word of the pattern under the flag `(?i)`. -/
def foldWord : GoString → Regex
  | [] => .empty
  | c :: rest => .cat (foldChar c) (foldWord rest)

/-- The class `[A-Z]` under `(?i)`. -/
def letterClass : Regex := .alt (.cls isLetter) (.alt (.lit longS) (.lit kelvin))

/-- The class `[A-Z0-9]` under `(?i)`. -/
def alnumClass : Regex :=
  .alt (.cls (fun b => isLetter b || isDigit b)) (.alt (.lit longS) (.lit kelvin))

/-- The class `[A-Z0-9-]` under `(?i)`. -/
def alnumHyphenClass : Regex :=
  .alt (.cls (fun b => isLetter b || isDigit b || b = 45)) (.alt (.lit longS) (.lit kelvin))

/-- The class `\d`. -/
def digitClass : Regex := .cls isDigit

/-- The class `\S` on bytes: a character that is not in `\s` is any byte of a
text other than the five bytes of `\s` (the bytes of a multi-byte character and
the bytes of an invalid encoding are all at least `0x80`). -/
def notSpaceClass : Regex := .cls (fun b => !isSpace b)

/-- The part `(?:http|ftp)s?` of the pattern. -/
def schemePart : Regex :=
  .cat (.alt (foldWord (str "http")) (foldWord (str "ftp"))) (foldChar 115).opt

/-- The part `[A-Z0-9](?:[A-Z0-9-]{0,61}[A-Z0-9])?` of the pattern. -/
def labelPart : Regex :=
  .cat alnumClass (Regex.opt (.cat (alnumHyphenClass.rep 0 61) alnumClass))

/-- The part
`(?:[A-Z0-9](?:[A-Z0-9-]{0,61}[A-Z0-9])?\.)+(?:[A-Z]{2,6}\.?|[A-Z0-9-]{2,}\.?)`
of the pattern. -/
def domainPart : Regex :=
  .cat (.plus (.cat labelPart (.lit (str "."))))
    (.alt (.cat (letterClass.rep 2 6) (Regex.opt (.lit (str "."))))
          (.cat (alnumHyphenClass.atLeast 2) (Regex.opt (.lit (str ".")))))

/-- The part `\d{1,3}\.\d{1,3}\.\d{1,3}\.\d{1,3}` of the pattern. -/
def ipv4Part : Regex :=
  .cat (digitClass.rep 1 3) (.cat (.lit (str "."))
    (.cat (digitClass.rep 1 3) (.cat (.lit (str "."))
      (.cat (digitClass.rep 1 3) (.cat (.lit (str ".")) (digitClass.rep 1 3))))))

/-- The host alternatives of the pattern: a domain name, `localhost`, or four
groups of digits. -/
def hostPart : Regex := .alt domainPart (.alt (foldWord (str "localhost")) ipv4Part)

/-- The part `(?::\d+)?` of the pattern. -/
def portPart : Regex := Regex.opt (.cat (.lit (str ":")) (.plus digitClass))

/-- The part `(?:/?|[/?]\S+)` of the pattern. -/
def pathPart : Regex :=
  .alt (Regex.opt (.lit (str "/"))) (.cat (.cls (fun b => b = 47 || b = 63)) (.plus notSpaceClass))

/-- The pattern of `IsValidURL` with the flag `(?i)`, between `^` and `$`. -/
def urlPattern : Regex :=
  .cat schemePart (.cat (.lit (str "://")) (.cat hostPart (.cat portPart pathPart)))

/-- The function `IsValidURL`: `regexp.MatchString("(?i)"+pattern, url)`, the
error (the pattern compiles) dropped. -/
def IsValidURL (url : GoString) : Bool := urlPattern.MatchString url

/-- Whether no byte with the property `P` occurs in a text an expression
matches: no class admits such a byte and no literal holds one. -/
def Regex.avoids (P : Byte → Bool) : Regex → Bool
  | .empty => true
  | .cls p => (List.finRange 256).all (fun c => !(p c && P c))
  | .lit t => t.all (fun c => !(P c))
  | .cat a b => Regex.avoids P a && Regex.avoids P b
  | .alt a b => Regex.avoids P a && Regex.avoids P b
  | .plus a => Regex.avoids P a

/-! ### The URL shape, in the words of the specification -/

/-- The text `u` is one character that is the lower-case letter `c` when case
is ignored: `c`, its upper case, or for `s` and `k` the long s and the Kelvin
sign, which case folding identifies with them. -/
def FoldsTo (u : GoString) (c : Byte) : Prop :=
  u = [c] ∨ u = [c - 32] ∨ (c = 115 ∧ u = longS) ∨ (c = 107 ∧ u = kelvin)

/-- The text `t` is the lower-case word `word` when case is ignored. -/
def EqualFold (t word : GoString) : Prop :=
  ∃ units : List GoString, t = units.flatten ∧ List.Forall₂ FoldsTo units word

/-- A scheme that is one of `http`, `https`, `ftp`, `ftps`, case ignored. -/
def IsScheme (t : GoString) : Prop :=
  EqualFold t (str "http") ∨ EqualFold t (str "https") ∨
  EqualFold t (str "ftp") ∨ EqualFold t (str "ftps")

/-- One letter, case ignored. -/
def IsLetterUnit (u : GoString) : Prop :=
  (∃ c : Byte, u = [c] ∧ isLetter c = true) ∨ u = longS ∨ u = kelvin

/-- One letter or digit. -/
def IsAlnumUnit (u : GoString) : Prop :=
  IsLetterUnit u ∨ ∃ c : Byte, u = [c] ∧ isDigit c = true

/-- One letter, digit or hyphen. -/
def IsLDHUnit (u : GoString) : Prop := IsAlnumUnit u ∨ u = str "-"

/-- A label of a domain name: 1 to 63 letters, digits or hyphens, the first and
the last a letter or digit. -/
def IsLabel (l : GoString) : Prop :=
  ∃ units : List GoString, l = units.flatten ∧ 1 ≤ units.length ∧ units.length ≤ 63 ∧
    (∀ u ∈ units, IsLDHUnit u) ∧
    (∀ u : GoString, units.head? = some u → IsAlnumUnit u) ∧
    (∀ u : GoString, units.getLast? = some u → IsAlnumUnit u)

/-- The last part of a domain name, in the words of the amended claim: two or
more letters, digits or hyphens. It has no bound on its length, and a hyphen may
begin or end it. -/
def IsLastPart (l : GoString) : Prop :=
  ∃ units : List GoString, l = units.flatten ∧ 2 ≤ units.length ∧ ∀ u ∈ units, IsLDHUnit u

/-- A domain name, in the words of the amended claim: one or more labels, each
followed by a dot, then a last part, then an optional dot. -/
def IsDomainName (h : GoString) : Prop :=
  ∃ (labels : List GoString) (top dot : GoString),
    labels ≠ [] ∧ (∀ l ∈ labels, IsLabel l) ∧ IsLastPart top ∧
    (dot = [] ∨ dot = str ".") ∧
    h = (labels.map (fun l => l ++ str ".")).flatten ++ top ++ dot

/-- Domain-label syntax, in the words of the claim: labels separated by dots,
then an optional dot, where every label, the last one included, is a label:
1 to 63 letters, digits or hyphens, the first and the last a letter or digit. -/
def IsDomainLabels (h : GoString) : Prop :=
  ∃ (labels : List GoString) (top dot : GoString),
    (∀ l ∈ labels, IsLabel l) ∧ IsLabel top ∧
    (dot = [] ∨ dot = str ".") ∧
    h = (labels.map (fun l => l ++ str ".")).flatten ++ top ++ dot

/-- One to three digits. -/
def IsDigits13 (t : GoString) : Prop :=
  1 ≤ t.length ∧ t.length ≤ 3 ∧ ∀ c ∈ t, isDigit c = true

/-- A dotted quad: four groups of one to three digits, separated by dots. -/
def IsDottedQuad (h : GoString) : Prop :=
  ∃ a b c d : GoString, IsDigits13 a ∧ IsDigits13 b ∧ IsDigits13 c ∧ IsDigits13 d ∧
    h = a ++ str "." ++ b ++ str "." ++ c ++ str "." ++ d

/-- A host, in the words of the amended claim: a domain name, `localhost`
(case ignored), or a dotted quad. -/
def IsHost (h : GoString) : Prop :=
  IsDomainName h ∨ EqualFold h (str "localhost") ∨ IsDottedQuad h

/-- A host, in the words of the claim: domain-label syntax, `localhost` (case
ignored), or a dotted quad. -/
def IsHostClaim (h : GoString) : Prop :=
  IsDomainLabels h ∨ EqualFold h (str "localhost") ∨ IsDottedQuad h

/-- An optional port: nothing, or a colon and one or more digits. -/
def IsPort (p : GoString) : Prop :=
  p = [] ∨ ∃ ds : GoString, ds ≠ [] ∧ (∀ c ∈ ds, isDigit c = true) ∧ p = str ":" ++ ds

/-- An optional path or query: nothing, or a text that begins with `/` or `?`
and holds none of the bytes for which `white` is true. -/
def IsPathQuery (white : Byte → Bool) (p : GoString) : Prop :=
  p = [] ∨ ∃ (c : Byte) (rest : GoString), p = c :: rest ∧ (c = 47 ∨ c = 63) ∧
    ∀ b ∈ p, white b = false

/-- The URL shape of the amended claim: scheme, `://`, a non-empty host, an
optional port, an optional path or query without the bytes for which `white`
is true. -/
def URLShape (white : Byte → Bool) (url : GoString) : Prop :=
  ∃ scheme host port path : GoString,
    url = scheme ++ str "://" ++ host ++ port ++ path ∧
    IsScheme scheme ∧ host ≠ [] ∧ IsHost host ∧ IsPort port ∧ IsPathQuery white path

/-- The URL shape of the claim: scheme, `://`, a non-empty host that is
domain-label syntax, `localhost` or a dotted quad, an optional port, an optional
path or query without the bytes for which `white` is true. -/
def URLShapeClaim (white : Byte → Bool) (url : GoString) : Prop :=
  ∃ scheme host port path : GoString,
    url = scheme ++ str "://" ++ host ++ port ++ path ∧
    IsScheme scheme ∧ host ≠ [] ∧ IsHostClaim host ∧ IsPort port ∧ IsPathQuery white path

/-- The ASCII white space characters: tab, newline, vertical tab, form feed,
carriage return, space (the characters below `0x80` for which
`unicode.IsSpace`, and so `strings.TrimSpace` in `LoadEndpoints`, is true). -/
def isWhiteSpace (c : Byte) : Bool := c = 9 || c = 10 || c = 11 || c = 12 || c = 13 || c = 32

/-- The UTF-8 bytes of U+00A0, the no-break space. -/
def noBreakSpace : GoString := [0xC2, 0xA0]

/-! # Theorems -/

/-! ## Fingerprint -/

theorem Sprintf_x_length (b : List Byte) : (Sprintf_x b).length = 2 * b.length := by
  induction b with
  | nil => rfl
  | cons c rest ih => simp [Sprintf_x, ih]; omega

theorem ldigits_getD_mem (n : Nat) (h : n < 16) : ldigits.getD n 0 ∈ ldigits := by
  interval_cases n <;> decide

theorem Sprintf_x_mem (b : List Byte) : ∀ d ∈ Sprintf_x b, d ∈ ldigits := by
  induction b with
  | nil => intro d hd; simp [Sprintf_x] at hd
  | cons c rest ih =>
    intro d hd
    simp only [Sprintf_x, List.mem_cons] at hd
    rcases hd with h | h | h
    · subst h
      apply ldigits_getD_mem
      have := c.isLt
      rw [Nat.shiftRight_eq_div_pow]; omega
    · subst h
      apply ldigits_getD_mem
      exact Nat.lt_of_le_of_lt Nat.and_le_right (by decide)
    · exact ih d h

set_option maxRecDepth 100000 in
theorem hexByte_eq : ∀ c : Byte,
    [ldigits.getD (c.val >>> 4) 0, ldigits.getD (c.val &&& 0xF) 0] = hexByteSpec c := by
  decide

/-- The `%x` rendering of package `fmt` is the lowercase hexadecimal numeral of
the specification's wording. -/
theorem Sprintf_x_eq_hexLowerSpec (b : List Byte) : Sprintf_x b = hexLowerSpec b := by
  induction b with
  | nil => rfl
  | cons c rest ih =>
    simp only [Sprintf_x, hexLowerSpec, ← ih, ← hexByte_eq c]
    rfl

/-- C10. `HashContent` is a function of the content alone: for every content `x`
it is exactly the first 10 characters of the lowercase hexadecimal rendering of
the 16-byte MD5 digest of `x` (the slice `[:10]` is in range, the rendering has
32 characters), so it has length 10, consists only of the characters
`0123456789abcdef`, is never the empty string, and equal contents yield equal
fingerprints. -/
theorem HashContent_fixed_length_hex (md5Sum : GoString → Digest16) (x : GoString) :
    HashContent md5Sum x = (hexLowerSpec (md5Sum x).bytes).take 10 ∧
    (Sprintf_x (md5Sum x).bytes).length = 32 ∧
    (HashContent md5Sum x).length = 10 ∧
    (∀ d ∈ HashContent md5Sum x, d ∈ str "0123456789abcdef") ∧
    HashContent md5Sum x ≠ [] ∧
    (∀ y : GoString, y = x → HashContent md5Sum y = HashContent md5Sum x) := by
  have hlen : (Sprintf_x (md5Sum x).bytes).length = 32 := by
    rw [Sprintf_x_length, (md5Sum x).size]
  have h10 : (HashContent md5Sum x).length = 10 := by
    simp [HashContent, List.length_take, hlen]
  refine ⟨?_, hlen, h10, ?_, ?_, ?_⟩
  · simp [HashContent, Sprintf_x_eq_hexLowerSpec]
  · intro d hd
    exact Sprintf_x_mem _ d (List.mem_of_mem_take hd)
  · intro h
    rw [h] at h10
    simp at h10
  · intro y hy
    rw [hy]

/-! ## History ledger -/

theorem AddHash_nilMap (s : Storage) (endpoint hash : GoString) :
    s.AddHash .nilMap endpoint hash = none := rfl

theorem AddHash_table (s : Storage) (m : GoString → Option (List GoString))
    (endpoint hash : GoString) :
    s.AddHash (.table m) endpoint hash =
      some (.table (fun k2 => if k2 = endpoint then some ((m endpoint).getD [] ++ [hash])
        else m k2)) := rfl

theorem AddHash_read_same (s : Storage) (state state2 : EndpointState)
    (endpoint hash : GoString) (h : s.AddHash state endpoint hash = some state2) :
    state2.read endpoint = state.read endpoint ++ [hash] := by
  cases state with
  | nilMap => simp [AddHash_nilMap] at h
  | table m =>
    rw [AddHash_table] at h
    cases h
    simp [EndpointState.read, EndpointState.index]

theorem AddHash_index_other (s : Storage) (state state2 : EndpointState)
    (endpoint hash other : GoString) (h : s.AddHash state endpoint hash = some state2)
    (hne : other ≠ endpoint) :
    state2.index other = state.index other := by
  cases state with
  | nilMap => simp [AddHash_nilMap] at h
  | table m =>
    rw [AddHash_table] at h
    cases h
    simp [EndpointState.index, hne]

theorem AddHashes_isSome (s : Storage) (endpoint : GoString) (fs : List GoString) :
    ∀ state : EndpointState, state ≠ .nilMap → (s.AddHashes state endpoint fs).isSome := by
  induction fs with
  | nil => intro state _; rfl
  | cons f fs ih =>
    intro state hst
    cases state with
    | nilMap => exact absurd rfl hst
    | table m =>
      simp only [Storage.AddHashes, AddHash_table]
      exact ih _ (by simp)

theorem AddHashes_post (s : Storage) (endpoint : GoString) (fs : List GoString) :
    ∀ state state2 : EndpointState, s.AddHashes state endpoint fs = some state2 →
      state2.read endpoint = state.read endpoint ++ fs ∧
      ∀ other : GoString, other ≠ endpoint → state2.index other = state.index other := by
  induction fs with
  | nil =>
    intro state state2 h
    simp only [Storage.AddHashes, Option.some.injEq] at h
    subst h
    simp
  | cons f fs ih =>
    intro state state2 h
    simp only [Storage.AddHashes] at h
    cases hadd : s.AddHash state endpoint f with
    | none => simp [hadd] at h
    | some st1 =>
      simp only [hadd] at h
      obtain ⟨h1, h2⟩ := ih st1 state2 h
      refine ⟨?_, ?_⟩
      · rw [h1, AddHash_read_same s state st1 endpoint f hadd]
        simp
      · intro other hne
        rw [h2 other hne, AddHash_index_other s state st1 endpoint f other hadd hne]

/-- C6. History is append-only. For every history, endpoint and fingerprints
`fs = f1..fN`: on an allocated history map the `N` successive `AddHash` calls
all complete, and whenever they complete the endpoint's sequence is its original
sequence followed by `f1..fN` in order (so with no prior history it has length
`N` and its last element is `fN`), every earlier element is unchanged, and the
entry of every other endpoint is unchanged. -/
theorem AddHash_append_only (s : Storage) (state : EndpointState) (endpoint : GoString)
    (fs : List GoString) :
    (state ≠ .nilMap → (s.AddHashes state endpoint fs).isSome) ∧
    ∀ state2 : EndpointState, s.AddHashes state endpoint fs = some state2 →
      state2.read endpoint = state.read endpoint ++ fs ∧
      (state.read endpoint = [] →
        (state2.read endpoint).length = fs.length ∧
        (state2.read endpoint).getLast? = fs.getLast?) ∧
      (∀ i : Nat, i < (state.read endpoint).length →
        (state2.read endpoint)[i]? = (state.read endpoint)[i]?) ∧
      (∀ other : GoString, other ≠ endpoint → state2.index other = state.index other) := by
  refine ⟨AddHashes_isSome s endpoint fs state, ?_⟩
  intro state2 h
  obtain ⟨h1, h2⟩ := AddHashes_post s endpoint fs state state2 h
  refine ⟨h1, ?_, ?_, h2⟩
  · intro hempty
    rw [h1, hempty]
    simp
  · intro i hi
    rw [h1, List.getElem?_append_left hi]

/-- The first part of C6 at a concrete history: three fingerprints recorded for
one endpoint of `stateTwoEndpoints`. -/
theorem AddHash_append_only_witness :
    ∃ state2 : EndpointState,
      Storage.NewDefault.AddHashes stateTwoEndpoints (str "https://b.example/lib.js")
        [str "aaaaaaaaaa", str "bbbbbbbbbb", str "cccccccccc"] = some state2 ∧
      state2.read (str "https://b.example/lib.js") =
        [str "4a8a08f09d", str "aaaaaaaaaa", str "bbbbbbbbbb", str "cccccccccc"] ∧
      state2.index (str "https://a.example/app.js") =
        some [str "0cc175b9c0", str "92eb5ffee6"] := by
  have hsome := (AddHash_append_only Storage.NewDefault stateTwoEndpoints
    (str "https://b.example/lib.js")
    [str "aaaaaaaaaa", str "bbbbbbbbbb", str "cccccccccc"]).1 (by simp [stateTwoEndpoints])
  obtain ⟨state2, h2⟩ := Option.isSome_iff_exists.mp hsome
  obtain ⟨h3, -, -, h4⟩ := (AddHash_append_only Storage.NewDefault stateTwoEndpoints
    (str "https://b.example/lib.js")
    [str "aaaaaaaaaa", str "bbbbbbbbbb", str "cccccccccc"]).2 state2 h2
  refine ⟨state2, h2, ?_, ?_⟩
  · rw [h3]; decide
  · rw [h4 _ (by decide)]; decide

theorem GetPreviousHash_eq_getLast (s : Storage) (state : EndpointState)
    (endpoint : GoString) :
    s.GetPreviousHash state endpoint = ((state.read endpoint).getLast?).getD [] := by
  unfold Storage.GetPreviousHash EndpointState.read
  cases hidx : state.index endpoint with
  | none => simp
  | some hashes =>
    by_cases hlen : hashes.length = 0
    · have : hashes = [] := List.length_eq_zero.mp hlen
      subst this
      simp
    · simp only [hlen, if_false, Option.getD_some]
      rw [List.getLast?_eq_getElem?, List.getD_eq_getElem?_getD]

/-- C7, as amended. For every history and endpoint, `GetPreviousHash` returns
the last element of the endpoint's sequence when the sequence is non-empty, and
the empty string when the endpoint has no recorded history; it returns the empty
string if and only if the endpoint has no recorded history or its last recorded
fingerprint is itself the empty string, so on a sequence of non-empty
fingerprints it returns the empty string exactly when there is no history; and
immediately after a completed `AddHash(state, endpoint, h)` it returns `h`. -/
theorem GetPreviousHash_last (s : Storage) (state : EndpointState) (endpoint : GoString) :
    (∀ h : GoString, (state.read endpoint).getLast? = some h →
      s.GetPreviousHash state endpoint = h) ∧
    (state.read endpoint = [] → s.GetPreviousHash state endpoint = []) ∧
    (s.GetPreviousHash state endpoint = [] ↔
      state.read endpoint = [] ∨ (state.read endpoint).getLast? = some []) ∧
    ((∀ f ∈ state.read endpoint, f ≠ []) →
      (s.GetPreviousHash state endpoint = [] ↔ state.read endpoint = [])) ∧
    (∀ (h : GoString) (state2 : EndpointState), s.AddHash state endpoint h = some state2 →
      s.GetPreviousHash state2 endpoint = h) := by
  have key := GetPreviousHash_eq_getLast s state endpoint
  have hiff : s.GetPreviousHash state endpoint = [] ↔
      state.read endpoint = [] ∨ (state.read endpoint).getLast? = some [] := by
    rw [key]
    cases hl : (state.read endpoint).getLast? with
    | none =>
      have := List.getLast?_eq_none_iff.mp hl
      simp [this]
    | some x =>
      have hne : state.read endpoint ≠ [] := by
        intro hnil; rw [hnil] at hl; simp at hl
      simp [hne]
  refine ⟨?_, ?_, hiff, ?_, ?_⟩
  · intro h hl
    rw [key, hl]; rfl
  · intro hnil
    rw [key, hnil]; rfl
  · intro hall
    rw [hiff]
    constructor
    · rintro (h | h)
      · exact h
      · exact absurd rfl (hall [] (List.mem_of_getLast?_eq_some h))
    · intro h; exact Or.inl h
  · intro h state2 hadd
    rw [GetPreviousHash_eq_getLast, AddHash_read_same s state state2 endpoint h hadd]
    simp

/-- C7, the claim as stated fails: in the history `stateEmptyFingerprint` the
endpoint `a` has a recorded history of one fingerprint, and `GetPreviousHash`
returns the empty string for it. -/
theorem GetPreviousHash_empty_with_history :
    stateEmptyFingerprint.index (str "a") = some [[]] ∧
    (stateEmptyFingerprint.read (str "a")).length = 1 ∧
    Storage.NewDefault.GetPreviousHash stateEmptyFingerprint (str "a") = [] ∧
    ¬ (Storage.NewDefault.GetPreviousHash stateEmptyFingerprint (str "a") = [] ↔
        stateEmptyFingerprint.read (str "a") = []) := by
  decide

/-! ## Content store -/

/-- C8. Store round trip. After a successful `SaveEndpointContent(hash, content)`,
`LoadEndpointContent(hash)` returns exactly `content` with a nil error and
`GetFileSize(hash)` returns the byte length of `content` with a nil error; and
on a store with no file under a fingerprint, `LoadEndpointContent` and
`GetFileSize` both return a non-nil error (with the zero value as result). -/
theorem store_round_trip (Join : GoString → GoString → GoString) (s : Storage)
    (fs : FileSystem) (hash content : GoString) :
    (∀ fs2 : FileSystem, s.SaveEndpointContent Join fs hash content = (none, fs2) →
      s.LoadEndpointContent Join fs2 hash = (content, none) ∧
      s.GetFileSize Join fs2 hash = ((content.length : Int), none)) ∧
    (fs.files (Join s.downloadsDir hash) = none →
      (s.LoadEndpointContent Join fs hash).1 = [] ∧
      (s.LoadEndpointContent Join fs hash).2 ≠ none ∧
      (s.GetFileSize Join fs hash).1 = 0 ∧
      (s.GetFileSize Join fs hash).2 ≠ none) := by
  constructor
  · intro fs2 hsave
    unfold Storage.SaveEndpointContent FileSystem.WriteFile at hsave
    cases hw : fs.writeErr (Join s.downloadsDir hash) with
    | some e => simp [hw] at hsave
    | none =>
      simp only [hw, Prod.mk.injEq, true_and] at hsave
      subst hsave
      simp [Storage.LoadEndpointContent, Storage.GetFileSize, FileSystem.ReadFile,
        FileSystem.StatSize]
  · intro hnone
    simp [Storage.LoadEndpointContent, Storage.GetFileSize, FileSystem.ReadFile,
      FileSystem.StatSize, hnone]

/-- The second half of C8 is reached: on the empty store a save of `var a=1;`
under `0cc175b9c0` succeeds, and the blob is read back with its size 8. -/
theorem store_round_trip_witness :
    (Storage.NewDefault.SaveEndpointContent joinPlain emptyFS (str "0cc175b9c0") (str "var a=1;")).1
      = none ∧
    Storage.NewDefault.LoadEndpointContent joinPlain
      (Storage.NewDefault.SaveEndpointContent joinPlain emptyFS (str "0cc175b9c0") (str "var a=1;")).2
      (str "0cc175b9c0") = (str "var a=1;", none) ∧
    Storage.NewDefault.GetFileSize joinPlain
      (Storage.NewDefault.SaveEndpointContent joinPlain emptyFS (str "0cc175b9c0") (str "var a=1;")).2
      (str "0cc175b9c0") = (8, none) :=
  ⟨rfl, (store_round_trip joinPlain Storage.NewDefault emptyFS (str "0cc175b9c0")
      (str "var a=1;")).1 _ rfl⟩

/-! ## Fetcher -/

theorem FetchLoop_step_fail (f : Fetcher) (endpoint : GoString) (fuel : Nat) (attempt : Int)
    (lastErr : Option GoError) (gets : Nat) (e : GoError)
    (hle : attempt ≤ f.maxRetries) (hfail : attemptError (f.client endpoint gets) = some e) :
    f.FetchLoop endpoint (fuel + 1) attempt lastErr gets =
      f.FetchLoop endpoint fuel (attempt + 1) (some e) (gets + 1) := by
  unfold attemptError at hfail
  rw [Fetcher.FetchLoop, if_pos hle]
  cases hc : f.client endpoint gets with
  | error err =>
    rw [hc] at hfail
    simp only [Option.some.injEq] at hfail
    simp [hfail]
  | ok resp =>
    rw [hc] at hfail
    dsimp only at hfail ⊢
    by_cases hs : resp.StatusCode ≠ 200
    · rw [if_pos hs] at hfail
      simp only [Option.some.injEq] at hfail
      simp only [if_pos hs, hfail]
    · rw [if_neg hs] at hfail
      simp only [if_neg hs]
      cases hb : resp.Body with
      | error err =>
        rw [hb] at hfail
        simp only [Option.some.injEq] at hfail
        simp only [hfail]
      | ok body =>
        rw [hb] at hfail
        simp at hfail

theorem FetchLoop_step_ok (f : Fetcher) (endpoint : GoString) (fuel : Nat) (attempt : Int)
    (lastErr : Option GoError) (gets : Nat) (status body : GoString)
    (hle : attempt ≤ f.maxRetries)
    (hok : f.client endpoint gets =
      .ok { StatusCode := 200, Status := status, Body := .ok body }) :
    f.FetchLoop endpoint (fuel + 1) attempt lastErr gets =
      some { content := body, err := none, gets := gets + 1 } := by
  rw [Fetcher.FetchLoop, if_pos hle, hok]
  simp

theorem FetchLoop_exit (f : Fetcher) (endpoint : GoString) (fuel : Nat) (attempt : Int)
    (lastErr : Option GoError) (gets : Nat) (hgt : ¬ attempt ≤ f.maxRetries) :
    f.FetchLoop endpoint (fuel + 1) attempt lastErr gets =
      some { content := [],
             err := some (Errorf_w
               (str "failed after " ++ str (toString (f.maxRetries + 1)) ++ str " attempts: ")
               lastErr),
             gets := gets } := by
  rw [Fetcher.FetchLoop, if_neg hgt]

/-- The loop runs through `j + 1` failing attempts in a row. -/
theorem FetchLoop_skip (f : Fetcher) (endpoint : GoString) (fuel : Nat) (j : Nat) :
    ∀ (attempt : Int) (lastErr : Option GoError) (gets : Nat),
      attempt + j ≤ f.maxRetries →
      (∀ i : Nat, i ≤ j → attemptError (f.client endpoint (gets + i)) ≠ none) →
      f.FetchLoop endpoint (fuel + (j + 1)) attempt lastErr gets =
        f.FetchLoop endpoint fuel (attempt + (j + 1))
          (attemptError (f.client endpoint (gets + j))) (gets + (j + 1)) := by
  induction j with
  | zero =>
    intro attempt lastErr gets hle hfail
    have h0 := hfail 0 (Nat.le_refl 0)
    obtain ⟨e, he⟩ := Option.ne_none_iff_exists'.mp h0
    simp only [Nat.add_zero] at he
    have hle2 : attempt ≤ f.maxRetries := by simpa using hle
    simp only [Nat.zero_add, Nat.add_zero, Nat.cast_zero, Int.add_zero, he]
    exact FetchLoop_step_fail f endpoint fuel attempt lastErr gets e hle2 he
  | succ j ih =>
    intro attempt lastErr gets hle hfail
    have h0 := hfail 0 (Nat.zero_le _)
    obtain ⟨e, he⟩ := Option.ne_none_iff_exists'.mp h0
    simp only [Nat.add_zero] at he
    have hle2 : attempt ≤ f.maxRetries := by push_cast at hle; omega
    have hstep := FetchLoop_step_fail f endpoint (fuel + (j + 1)) attempt lastErr gets e hle2 he
    have hrest := ih (attempt + 1) (some e) (gets + 1) (by push_cast at hle ⊢; omega)
      (by
        intro i hi
        have := hfail (i + 1) (by omega)
        rwa [show gets + 1 + i = gets + (i + 1) by omega])
    have e1 : fuel + (j + 1 + 1) = fuel + (j + 1) + 1 := by omega
    have e2 : attempt + 1 + ((j : Int) + 1) = attempt + (((j + 1 : Nat) : Int) + 1) := by
      push_cast; ring
    have e3 : gets + 1 + j = gets + (j + 1) := by omega
    have e4 : gets + 1 + (j + 1) = gets + (j + 1 + 1) := by omega
    rw [e1, hstep, hrest, e2, e3, e4]

/-- With enough iterations allowed the loop returns, having made at least one
more request when its test holds. -/
theorem FetchLoop_total (f : Fetcher) (endpoint : GoString) (fuel : Nat) :
    ∀ (attempt : Int) (lastErr : Option GoError) (gets : Nat),
      (f.maxRetries + 1 - attempt).toNat < fuel →
      ∃ r : FetchReturn, f.FetchLoop endpoint fuel attempt lastErr gets = some r ∧
        gets ≤ r.gets ∧ (attempt ≤ f.maxRetries → gets < r.gets) := by
  induction fuel with
  | zero => intro attempt lastErr gets h; omega
  | succ fuel ih =>
    intro attempt lastErr gets h
    by_cases hle : attempt ≤ f.maxRetries
    · have hfuel : (f.maxRetries + 1 - (attempt + 1)).toNat < fuel := by omega
      cases herr : attemptError (f.client endpoint gets) with
      | some e =>
        rw [FetchLoop_step_fail f endpoint fuel attempt lastErr gets e hle herr]
        obtain ⟨r, hr, hg, -⟩ := ih (attempt + 1) (some e) (gets + 1) hfuel
        exact ⟨r, hr, by omega, fun _ => by omega⟩
      | none =>
        unfold attemptError at herr
        cases hc : f.client endpoint gets with
        | error err => rw [hc] at herr; simp at herr
        | ok resp =>
          rw [hc] at herr
          by_cases hs : resp.StatusCode ≠ 200
          · simp [hs] at herr
          · simp only [hs, if_false] at herr
            cases hb : resp.Body with
            | error err => rw [hb] at herr; simp at herr
            | ok body =>
              have h200 : resp.StatusCode = 200 := by simpa using hs
              have hok : f.client endpoint gets =
                  .ok { StatusCode := 200, Status := resp.Status, Body := .ok body } := by
                rw [hc, ← h200, ← hb]
              rw [FetchLoop_step_ok f endpoint fuel attempt lastErr gets resp.Status body hle hok]
              exact ⟨_, rfl, by simp, fun _ => by simp⟩
    · rw [FetchLoop_exit f endpoint fuel attempt lastErr gets hle]
      exact ⟨_, rfl, by simp, fun h2 => absurd h2 hle⟩

/-- The method `Fetch` always returns. -/
theorem Fetch_total (f : Fetcher) (endpoint : GoString) :
    ∃ r : FetchReturn, f.Fetch endpoint = some r := by
  obtain ⟨r, hr, -, -⟩ := FetchLoop_total f endpoint ((f.maxRetries + 1).toNat + 1) 0 none 0
    (by omega)
  exact ⟨r, hr⟩

/-- After `k` failing attempts, with attempt `k` still within the retry budget,
`Fetch` is at the loop test of attempt `k` having made `k` requests. -/
theorem Fetch_after_failures (f : Fetcher) (endpoint : GoString) (k : Nat)
    (hk : (k : Int) ≤ f.maxRetries)
    (hfail : ∀ n : Nat, n < k → attemptError (f.client endpoint n) ≠ none) :
    ∃ lastErr : Option GoError,
      f.Fetch endpoint =
        f.FetchLoop endpoint ((f.maxRetries + 1).toNat + 1 - k) k lastErr k := by
  cases k with
  | zero => exact ⟨none, rfl⟩
  | succ j =>
    refine ⟨attemptError (f.client endpoint (0 + j)), ?_⟩
    have hskip := FetchLoop_skip f endpoint ((f.maxRetries + 1).toNat + 1 - (j + 1)) j 0 none 0
      (by push_cast at hk; omega)
      (by intro i hi; rw [Nat.zero_add]; exact hfail i (by omega))
    have e1 : (f.maxRetries + 1).toNat + 1 - (j + 1) + (j + 1) = (f.maxRetries + 1).toNat + 1 := by
      push_cast at hk; omega
    have e2 : (0 : Int) + ((j : Int) + 1) = ((j + 1 : Nat) : Int) := by push_cast; ring
    rw [e1, e2, Nat.zero_add, Nat.zero_add] at hskip
    rw [Nat.zero_add]
    exact hskip

/-- C2. For every `Fetcher` with `maxRetries >= 0` and every endpoint whose
every attempt fails, `Fetch` makes exactly `maxRetries + 1` requests and then
returns the empty content with a non-nil error that wraps the error of the last
attempt (the attempt numbered `maxRetries`). -/
theorem Fetch_all_attempts_fail (f : Fetcher) (endpoint : GoString)
    (hmax : 0 ≤ f.maxRetries)
    (hfail : ∀ n : Nat, (n : Int) ≤ f.maxRetries →
      attemptError (f.client endpoint n) ≠ none) :
    ∃ (r : FetchReturn) (lastErr werr : GoError),
      f.Fetch endpoint = some r ∧
      (r.gets : Int) = f.maxRetries + 1 ∧
      r.content = [] ∧
      r.err = some werr ∧
      attemptError (f.client endpoint f.maxRetries.toNat) = some lastErr ∧
      werr.Unwrap = some lastErr ∧
      werr.Error = str "failed after " ++ str (toString (f.maxRetries + 1)) ++
        str " attempts: " ++ lastErr.Error := by
  obtain ⟨lastErr, hlast⟩ := Option.ne_none_iff_exists'.mp
    (hfail f.maxRetries.toNat (by omega))
  have hskip := FetchLoop_skip f endpoint 1 f.maxRetries.toNat 0 none 0 (by omega)
    (by intro i hi; rw [Nat.zero_add]; exact hfail i (by omega))
  have e1 : (f.maxRetries + 1).toNat + 1 = 1 + (f.maxRetries.toNat + 1) := by omega
  rw [Nat.zero_add, Nat.zero_add, hlast] at hskip
  have hexit := FetchLoop_exit f endpoint 0 (0 + ((f.maxRetries.toNat : Int) + 1))
    (some lastErr) (f.maxRetries.toNat + 1) (by omega)
  rw [Nat.zero_add] at hexit
  refine ⟨{ content := [],
             err := some (Errorf_w
               (str "failed after " ++ str (toString (f.maxRetries + 1)) ++ str " attempts: ")
               (some lastErr)),
             gets := f.maxRetries.toNat + 1 }, lastErr,
    Errorf_w (str "failed after " ++ str (toString (f.maxRetries + 1)) ++ str " attempts: ")
      (some lastErr), ?_, ?_, rfl, rfl, hlast, rfl, ?_⟩
  · unfold Fetcher.Fetch
    rw [e1, hskip, hexit]
  · push_cast; omega
  · simp [Errorf_w, GoError.Error]

/-- C2 at a fetcher with the default three retries and a server that refuses
every connection: four requests, then the wrapped error. -/
theorem Fetch_all_attempts_fail_witness :
    ∃ (r : FetchReturn) (lastErr werr : GoError),
      Fetcher.Fetch (Fetcher.NewDefault alwaysRefused) (str "https://a.example/app.js")
        = some r ∧
      (r.gets : Int) = 3 + 1 ∧
      r.content = [] ∧
      r.err = some werr ∧
      attemptError (alwaysRefused (str "https://a.example/app.js") 3) = some lastErr ∧
      werr.Unwrap = some lastErr ∧
      werr.Error = str "failed after " ++ str (toString ((3 : Int) + 1)) ++
        str " attempts: " ++ lastErr.Error :=
  Fetch_all_attempts_fail (Fetcher.NewDefault alwaysRefused)
    (str "https://a.example/app.js") (by decide)
    (by intro n _; simp [attemptError, alwaysRefused, Fetcher.NewDefault])

/-- C3, as amended. `Fetch` treats an attempt as failed exactly when
`client.Get` fails, the status code is not 200, or reading the body fails. When
the attempts before attempt `k` all failed and `k` is within the retry budget:
an attempt `k` with status 200 and a readable body ends the retries, and `Fetch`
returns that body with a nil error after `k + 1` requests; a failed attempt `k`
is not the result, `Fetch` goes on, and makes a further request whenever
`k < maxRetries`. -/
theorem Fetch_retries_until_200 (f : Fetcher) (endpoint : GoString) (k : Nat)
    (hk : (k : Int) ≤ f.maxRetries)
    (hfail : ∀ n : Nat, n < k → attemptError (f.client endpoint n) ≠ none) :
    (attemptError (f.client endpoint k) ≠ none ↔
      ((∃ e : GoError, f.client endpoint k = .error e) ∨
       (∃ resp : Response, f.client endpoint k = .ok resp ∧
          (resp.StatusCode ≠ 200 ∨ ∃ e : GoError, resp.Body = .error e)))) ∧
    (∀ status body : GoString,
      f.client endpoint k = .ok { StatusCode := 200, Status := status, Body := .ok body } →
      f.Fetch endpoint = some { content := body, err := none, gets := k + 1 }) ∧
    (attemptError (f.client endpoint k) ≠ none →
      ∃ r : FetchReturn, f.Fetch endpoint = some r ∧ k + 1 ≤ r.gets ∧
        ((k : Int) < f.maxRetries → k + 2 ≤ r.gets) ∧
        (r.err = none → k + 2 ≤ r.gets)) := by
  obtain ⟨lastErr, hreach⟩ := Fetch_after_failures f endpoint k hk hfail
  have hfuel : (f.maxRetries + 1).toNat + 1 - k = ((f.maxRetries + 1).toNat - k) + 1 := by
    omega
  refine ⟨?_, ?_, ?_⟩
  · unfold attemptError
    cases hc : f.client endpoint k with
    | error err => simp
    | ok resp =>
      by_cases hs : resp.StatusCode ≠ 200
      · simp [hs]
      · cases hb : resp.Body with
        | error err => simp [hs, hb]
        | ok body => simp [hs, hb]
  · intro status body hok
    rw [hreach, hfuel]
    exact FetchLoop_step_ok f endpoint _ k lastErr k status body hk hok
  · intro hbad
    obtain ⟨e, he⟩ := Option.ne_none_iff_exists'.mp hbad
    have hstep := FetchLoop_step_fail f endpoint ((f.maxRetries + 1).toNat - k) k lastErr k e
      hk he
    obtain ⟨r, hr, hg, hg2⟩ := FetchLoop_total f endpoint ((f.maxRetries + 1).toNat - k)
      ((k : Int) + 1) (some e) (k + 1) (by omega)
    refine ⟨r, ?_, hg, ?_, ?_⟩
    · rw [hreach, hfuel, hstep, hr]
    · intro hlt
      have := hg2 (by omega)
      omega
    · intro hnone
      by_cases hlt : (k : Int) < f.maxRetries
      · have := hg2 (by omega)
        omega
      · have hexit := FetchLoop_exit f endpoint ((f.maxRetries + 1).toNat - k - 1)
          ((k : Int) + 1) (some e) (k + 1) (by omega)
        have e3 : (f.maxRetries + 1).toNat - k - 1 + 1 = (f.maxRetries + 1).toNat - k := by
          omega
        rw [e3, hr] at hexit
        simp only [Option.some.injEq] at hexit
        rw [hexit] at hnone
        simp at hnone

/-- C3 as amended, at a server that fails three times and then answers 200:
the fourth attempt (`k = 3`) ends the retries with its body. -/
theorem Fetch_retries_until_200_witness :
    Fetcher.Fetch (Fetcher.NewDefault flakyThenOk) (str "https://a.example/app.js")
      = some { content := str "var a=1;", err := none, gets := 3 + 1 } :=
  (Fetch_retries_until_200 (Fetcher.NewDefault flakyThenOk)
    (str "https://a.example/app.js") 3 (by decide)
    (by
      intro n hn
      interval_cases n <;> simp [attemptError, flakyThenOk, Fetcher.NewDefault])).2.1
    (str "200 OK") (str "var a=1;") rfl

/-- C3, the claim as stated fails: the first attempt receives the 2xx status
`201 Created` with the readable body `ok`, yet `Fetch` retries it (four
requests with three retries) and returns the empty content with an error. -/
theorem Fetch_201_not_success :
    (∃ status : GoString, created201 (str "https://a.example/app.js") 0 =
      .ok { StatusCode := 201, Status := status, Body := .ok (str "ok") }) ∧
    Fetcher.Fetch (Fetcher.NewDefault created201) (str "https://a.example/app.js") =
      some { content := [],
             err := some (.wrapError
               (str "failed after 4 attempts: HTTP 201: 201 Created")
               (.errorString (str "HTTP 201: 201 Created"))),
             gets := 4 } :=
  ⟨⟨_, rfl⟩, by decide⟩

theorem fetchTask_eq (f : Fetcher) (results : List FetchResult) (idx : Nat) (ep : GoString) :
    f.fetchTask results idx ep = some (results.set idx (f.resultFor ep)) := by
  obtain ⟨r, hr⟩ := Fetch_total f ep
  simp [Fetcher.fetchTask, Fetcher.resultFor, hr]

/-- Whatever the order of the writes, every slot whose goroutine has run holds
that goroutine's result and every other slot is untouched. -/
theorem fetchTasks_slots (f : Fetcher) (endpoints : List GoString) (order : List Nat) :
    ∀ results : List FetchResult, results.length = endpoints.length →
      ∃ final : List FetchResult,
        f.fetchTasks endpoints order results = some final ∧
        final.length = endpoints.length ∧
        ∀ i : Nat, i < endpoints.length →
          final[i]? = if i ∈ order then (endpoints[i]?).map f.resultFor else results[i]? := by
  induction order with
  | nil =>
    intro results hlen
    exact ⟨results, rfl, hlen, fun i _ => by simp⟩
  | cons idx rest ih =>
    intro results hlen
    cases hep : endpoints[idx]? with
    | none =>
      obtain ⟨final, hrun, hflen, hslots⟩ := ih results hlen
      refine ⟨final, ?_, hflen, ?_⟩
      · simp only [Fetcher.fetchTasks, hep]
        exact hrun
      · intro i hi
        have hne : i ≠ idx := by
          intro h
          subst h
          rw [List.getElem?_eq_none_iff] at hep
          omega
        rw [hslots i hi]
        simp [hne]
    | some ep =>
      obtain ⟨final, hrun, hflen, hslots⟩ := ih (results.set idx (f.resultFor ep))
        (by simpa using hlen)
      refine ⟨final, ?_, hflen, ?_⟩
      · simp only [Fetcher.fetchTasks, hep, fetchTask_eq]
        exact hrun
      · intro i hi
        rw [hslots i hi]
        by_cases hmem : i ∈ rest
        · simp [hmem]
        · by_cases hidx : i = idx
          · subst hidx
            have hlt : i < results.length := by omega
            simp [hmem, hep, List.getElem?_set_self, hlt]
          · have hidx2 : idx ≠ i := fun h => hidx h.symm
            simp [hmem, hidx, List.getElem?_set_ne hidx2]

theorem FetchAll_eq_map (f : Fetcher) (endpoints : List GoString) (order : List Nat)
    (hperm : order.Perm (List.range endpoints.length)) :
    f.FetchAll endpoints order = some (endpoints.map f.resultFor) := by
  obtain ⟨final, hrun, hflen, hslots⟩ := fetchTasks_slots f endpoints order
    (List.replicate endpoints.length { Endpoint := [], Content := [], Error := none })
    (by simp)
  unfold Fetcher.FetchAll
  rw [hrun]
  congr 1
  apply List.ext_getElem?
  intro i
  by_cases hi : i < endpoints.length
  · have hmem : i ∈ order := hperm.mem_iff.mpr (List.mem_range.mpr hi)
    rw [hslots i hi]
    simp [hmem]
  · have h1 : final[i]? = none := List.getElem?_eq_none_iff.mpr (by omega)
    have h2 : (endpoints.map f.resultFor)[i]? = none :=
      List.getElem?_eq_none_iff.mpr (by simp; omega)
    rw [h1, h2]

/-- C5. For every list of endpoints and every order in which the goroutines
complete, `FetchAll` returns a result list of the same length as the input in
which, for every index `i`, `results[i].Endpoint` is `endpoints[i]` and
`results[i]` carries the content and error that `Fetch` returned for
`endpoints[i]`; any other completion order gives the same list. -/
theorem FetchAll_index_correspondence (f : Fetcher) (endpoints : List GoString)
    (order : List Nat) (hperm : order.Perm (List.range endpoints.length)) :
    ∃ results : List FetchResult,
      f.FetchAll endpoints order = some results ∧
      results.length = endpoints.length ∧
      (∀ (i : Nat) (ep : GoString), endpoints[i]? = some ep →
        ∃ r : FetchReturn, f.Fetch ep = some r ∧
          results[i]? = some { Endpoint := ep, Content := r.content, Error := r.err }) ∧
      (∀ order2 : List Nat, order2.Perm (List.range endpoints.length) →
        f.FetchAll endpoints order2 = some results) := by
  refine ⟨endpoints.map f.resultFor, FetchAll_eq_map f endpoints order hperm, by simp, ?_,
    fun order2 h2 => FetchAll_eq_map f endpoints order2 h2⟩
  intro i ep hep
  obtain ⟨r, hr⟩ := Fetch_total f ep
  refine ⟨r, hr, ?_⟩
  simp [hep, Fetcher.resultFor, hr]

/-- C5 at three endpoints whose goroutines complete in the order 2, 0, 1. -/
theorem FetchAll_index_correspondence_witness :
    ∃ results : List FetchResult,
      Fetcher.FetchAll (Fetcher.NewDefault flakyThenOk)
        [str "https://a.example/a.js", str "https://b.example/b.js", str "https://c.example/c.js"]
        [2, 0, 1] = some results ∧
      results.length = 3 ∧
      (∀ (i : Nat) (ep : GoString),
        [str "https://a.example/a.js", str "https://b.example/b.js",
          str "https://c.example/c.js"][i]? = some ep →
        ∃ r : FetchReturn,
          Fetcher.Fetch (Fetcher.NewDefault flakyThenOk) ep = some r ∧
          results[i]? = some { Endpoint := ep, Content := r.content, Error := r.err }) ∧
      (∀ order2 : List Nat, order2.Perm (List.range 3) →
        Fetcher.FetchAll (Fetcher.NewDefault flakyThenOk)
          [str "https://a.example/a.js", str "https://b.example/b.js",
            str "https://c.example/c.js"] order2 = some results) :=
  FetchAll_index_correspondence (Fetcher.NewDefault flakyThenOk)
    [str "https://a.example/a.js", str "https://b.example/b.js", str "https://c.example/c.js"]
    [2, 0, 1] (by decide)

/-! ## Notifier -/

theorem notifyLoop_eq {σ : Type} (notification : ChangeNotification)
    (bs : List (Notifier σ)) :
    ∀ (errors : List GoError) (w : σ),
      MultiNotifier.notifyLoop notification bs errors w =
        (errors ++ failureErrors (calledInOrder notification bs w),
         bs.foldl (fun w2 b => (b.Notify notification w2).2) w) := by
  induction bs with
  | nil => intro errors w; simp [MultiNotifier.notifyLoop, calledInOrder, failureErrors]
  | cons b rest ih =>
    intro errors w
    rw [MultiNotifier.notifyLoop]
    cases hb : b.Notify notification w with
    | mk res w2 =>
      cases res with
      | none => simp [ih, calledInOrder, failureErrors, hb]
      | some err => simp [ih, calledInOrder, failureErrors, hb]

theorem failureErrors_eq_nil (l : List (GoString × Option GoError)) :
    failureErrors l = [] ↔ ∀ p ∈ l, p.2 = none := by
  induction l with
  | nil => simp [failureErrors]
  | cons p rest ih =>
    obtain ⟨name, res⟩ := p
    cases res with
    | none => simp [failureErrors, ih]
    | some err => simp [failureErrors]

theorem failureErrors_texts (l : List (GoString × Option GoError)) :
    (failureErrors l).map GoError.Error = failureTags l := by
  induction l with
  | nil => rfl
  | cons p rest ih =>
    obtain ⟨name, res⟩ := p
    cases res with
    | none => simpa [failureErrors, failureTags] using ih
    | some err => simp [failureErrors, failureTags, ih, Errorf_w, GoError.Error]

theorem fmtErrorElems_eq_joinSpace (errors : List GoError) :
    fmtErrorElems errors = joinSpace (errors.map GoError.Error) := by
  induction errors with
  | nil => rfl
  | cons e rest ih =>
    cases rest with
    | nil => rfl
    | cons e2 rest2 =>
      simp only [fmtErrorElems, List.map_cons, joinSpace]
      rw [ih]
      rfl

theorem failureTags_mem (l : List (GoString × Option GoError)) (name : GoString)
    (err : GoError) (h : (name, some err) ∈ l) :
    name ++ str ": " ++ err.Error ∈ failureTags l := by
  induction l with
  | nil => simp at h
  | cons p rest ih =>
    obtain ⟨name2, res⟩ := p
    rcases List.mem_cons.mp h with heq | hmem
    · cases heq
      simp [failureTags]
    · cases res with
      | none => simpa [failureTags] using ih hmem
      | some err2 =>
        simp only [failureTags, List.mem_cons]
        exact Or.inr (ih hmem)

theorem joinSpace_infix (ts : List GoString) (t : GoString) (h : t ∈ ts) :
    t <:+: joinSpace ts := by
  induction ts with
  | nil => simp at h
  | cons t1 rest ih =>
    cases rest with
    | nil =>
      have : t = t1 := by simpa using h
      subst this
      exact List.infix_refl _
    | cons t2 rest2 =>
      simp only [joinSpace]
      rcases List.mem_cons.mp h with heq | hmem
      · subst heq
        exact ⟨[], str " " ++ joinSpace (t2 :: rest2), by simp⟩
      · obtain ⟨a, b, hab⟩ := ih hmem
        exact ⟨t1 ++ str " " ++ a, b, by simp [← hab]⟩

/-- C4. For every list of backends and every notification, `MultiNotifier.Notify`
calls `Notify` on every backend once, in order, whatever the earlier backends
returned (the world it leaves is the one left by calling each backend in turn);
it returns nil if and only if every backend returned nil; otherwise it returns
one error whose message is `notification errors: [` followed by the texts
`Name() + ": " + error text` of exactly the failed backends, in order and
separated by spaces, and `]`, so that it contains that text for each failed
backend and has no entry for a backend that succeeded. -/
theorem MultiNotifier_Notify_fanout {σ : Type} (m : MultiNotifier σ)
    (notification : ChangeNotification) (w : σ) :
    (m.Notify notification w).2 =
      m.notifiers.foldl (fun w2 b => (b.Notify notification w2).2) w ∧
    ((m.Notify notification w).1 = none ↔
      ∀ p ∈ calledInOrder notification m.notifiers w, p.2 = none) ∧
    (∀ e : GoError, (m.Notify notification w).1 = some e →
      e.Error = str "notification errors: [" ++
        joinSpace (failureTags (calledInOrder notification m.notifiers w)) ++ str "]" ∧
      ∀ (name : GoString) (err : GoError),
        (name, some err) ∈ calledInOrder notification m.notifiers w →
        (name ++ str ": " ++ err.Error) <:+: e.Error) := by
  have hloop := notifyLoop_eq notification m.notifiers [] w
  rw [List.nil_append] at hloop
  have hlit : str "notification errors: [" = str "notification errors: " ++ str "[" := by
    decide
  by_cases hnil : failureErrors (calledInOrder notification m.notifiers w) = []
  · have hres : m.Notify notification w =
        (none, m.notifiers.foldl (fun w2 b => (b.Notify notification w2).2) w) := by
      simp [MultiNotifier.Notify, hloop, hnil]
    refine ⟨by rw [hres], ?_, ?_⟩
    · rw [hres]
      simpa using (failureErrors_eq_nil _).mp hnil
    · intro e he
      rw [hres] at he
      simp at he
  · have hpos : (failureErrors (calledInOrder notification m.notifiers w)).length > 0 :=
      List.length_pos.mpr hnil
    have hres : m.Notify notification w =
        (some (notificationErrors (failureErrors (calledInOrder notification m.notifiers w))),
         m.notifiers.foldl (fun w2 b => (b.Notify notification w2).2) w) := by
      simp only [MultiNotifier.Notify, hloop]
      rw [if_pos hpos]
    refine ⟨by rw [hres], ?_, ?_⟩
    · rw [hres]
      constructor
      · intro h; simp at h
      · intro h; exact absurd ((failureErrors_eq_nil _).mpr h) hnil
    · intro e he
      rw [hres] at he
      simp only [Option.some.injEq] at he
      subst he
      have htext : (notificationErrors
          (failureErrors (calledInOrder notification m.notifiers w))).Error =
          str "notification errors: [" ++
            joinSpace (failureTags (calledInOrder notification m.notifiers w)) ++ str "]" := by
        simp only [notificationErrors, GoError.Error, fmtErrorElems_eq_joinSpace,
          failureErrors_texts, hlit, List.append_assoc]
      refine ⟨htext, ?_⟩
      intro name err hmem
      rw [htext]
      obtain ⟨a, b, hab⟩ := joinSpace_infix _ _ (failureTags_mem _ name err hmem)
      exact ⟨str "notification errors: [" ++ a, b ++ str "]", by simp [← hab]⟩

/-- C4 at three backends of which the first and the third fail: all three are
called, in order, and the error names the first and the third. -/
theorem threeBackends_all_called :
    threeBackends.Notify sampleNotification [] =
      (some (.errorString (str "notification errors: [Telegram: timeout Discord: HTTP 429]")),
       [str "Telegram", str "Slack", str "Discord"]) := by
  decide

/-! ## Differ -/

set_option maxRecDepth 100000 in
/-- The claim's rendering on a segment of 101 characters, 99 times `a` and two
times `é`: the first 50 and the last 50 characters, whole. -/
theorem equalTextSpec_example :
    charCount (List.replicate 49 97 ++ [0xC3, 0xA9, 0xC3, 0xA9] ++ List.replicate 50 97) = 101 ∧
    equalTextSpec (List.replicate 49 97 ++ [0xC3, 0xA9, 0xC3, 0xA9] ++ List.replicate 50 97) =
      (List.replicate 49 97 ++ [0xC3, 0xA9]) ++ str "..." ++ List.replicate 50 97 := by
  decide

/-! ## Driver -/

theorem classify_cases (prevHash newHash : GoString) :
    (classify prevHash newHash = .Enrolled ↔ prevHash = []) ∧
    (classify prevHash newHash = .Unchanged ↔ prevHash ≠ [] ∧ prevHash = newHash) ∧
    (classify prevHash newHash = .Changed ↔ prevHash ≠ [] ∧ prevHash ≠ newHash) := by
  unfold classify
  by_cases h1 : prevHash = []
  · rw [if_pos h1]
    simp [h1]
  · by_cases h2 : prevHash = newHash
    · rw [if_neg h1, if_pos h2]
      exact ⟨by simp [h1], ⟨fun _ => ⟨h1, h2⟩, fun _ => rfl⟩, by simp [h2]⟩
    · rw [if_neg h1, if_neg h2]
      exact ⟨by simp [h1], by simp [h2], by simp [h1, h2]⟩

/-- C1. For every successful fetch result the driver's decision is a function
of the pair (previous fingerprint, new fingerprint) alone, `classify`, and it is
exactly one of three outcomes: Enrolled exactly when the previous fingerprint is
absent (`GetPreviousHash` returned the empty string), Unchanged exactly when it
is present and equal to `HashContent(content)`, Changed exactly when it is
present and different. The loop body acts on that outcome: Unchanged leaves the
run state as it is, Enrolled records the new fingerprint in the history and
counts no change, Changed counts one change and no enrollment. -/
theorem classification_total {σ : Type} (d : Driver σ) (rs : RunState σ)
    (result : FetchResult) (hok : result.Error = none) :
    ∃ c : Classification,
      c = classify (d.store.GetPreviousHash rs.state result.Endpoint)
            (HashContent d.md5Sum result.Content) ∧
      (c = .Enrolled ∨ c = .Unchanged ∨ c = .Changed) ∧
      (c = .Enrolled ↔ d.store.GetPreviousHash rs.state result.Endpoint = []) ∧
      (c = .Unchanged ↔
        d.store.GetPreviousHash rs.state result.Endpoint ≠ [] ∧
        d.store.GetPreviousHash rs.state result.Endpoint =
          HashContent d.md5Sum result.Content) ∧
      (c = .Changed ↔
        d.store.GetPreviousHash rs.state result.Endpoint ≠ [] ∧
        d.store.GetPreviousHash rs.state result.Endpoint ≠
          HashContent d.md5Sum result.Content) ∧
      (c = .Unchanged → d.processResult rs result = some rs) ∧
      (c = .Enrolled → ∀ rs2 : RunState σ, d.processResult rs result = some rs2 →
        rs2.changesDetected = rs.changesDetected ∧
        rs2.state.read result.Endpoint =
          rs.state.read result.Endpoint ++ [HashContent d.md5Sum result.Content]) ∧
      (c = .Changed → ∀ rs2 : RunState σ, d.processResult rs result = some rs2 →
        rs2.changesDetected = rs.changesDetected + 1 ∧
        rs2.newEndpoints = rs.newEndpoints) := by
  obtain ⟨h1, h2, h3⟩ := classify_cases (d.store.GetPreviousHash rs.state result.Endpoint)
    (HashContent d.md5Sum result.Content)
  refine ⟨_, rfl, ?_, h1, h2, h3, ?_, ?_, ?_⟩
  · cases classify (d.store.GetPreviousHash rs.state result.Endpoint)
      (HashContent d.md5Sum result.Content) <;> simp
  · intro hc
    simp only [Driver.processResult, hok, hc]
  · intro hc rs2 hrun
    simp only [Driver.processResult, hok, hc] at hrun
    cases hadd : d.store.AddHash rs.state result.Endpoint
        (HashContent d.md5Sum result.Content) with
    | none => simp [hadd] at hrun
    | some state2 =>
      simp only [hadd] at hrun
      have hread := AddHash_read_same d.store rs.state state2 result.Endpoint _ hadd
      split at hrun <;> cases hrun <;> exact ⟨rfl, hread⟩
  · intro hc rs2 hrun
    simp only [Driver.processResult, hok, hc] at hrun
    repeat' split at hrun
    all_goals first
      | (cases hrun; exact ⟨rfl, rfl⟩)
      | (exact absurd hrun (by simp))

/-- C1 at the first run on a successful fetch of `var a=1;`: no previous
fingerprint, so the result is classified Enrolled. -/
theorem classification_total_witness :
    ∃ c : Classification,
      c = classify (exampleDriver.store.GetPreviousHash firstRun.state fetchedA1.Endpoint)
            (HashContent exampleDriver.md5Sum fetchedA1.Content) ∧
      (c = .Enrolled ∨ c = .Unchanged ∨ c = .Changed) ∧
      (c = .Enrolled ↔
        exampleDriver.store.GetPreviousHash firstRun.state fetchedA1.Endpoint = []) ∧
      (c = .Unchanged ↔
        exampleDriver.store.GetPreviousHash firstRun.state fetchedA1.Endpoint ≠ [] ∧
        exampleDriver.store.GetPreviousHash firstRun.state fetchedA1.Endpoint =
          HashContent exampleDriver.md5Sum fetchedA1.Content) ∧
      (c = .Changed ↔
        exampleDriver.store.GetPreviousHash firstRun.state fetchedA1.Endpoint ≠ [] ∧
        exampleDriver.store.GetPreviousHash firstRun.state fetchedA1.Endpoint ≠
          HashContent exampleDriver.md5Sum fetchedA1.Content) ∧
      (c = .Unchanged → exampleDriver.processResult firstRun fetchedA1 = some firstRun) ∧
      (c = .Enrolled → ∀ rs2 : RunState (List GoString),
        exampleDriver.processResult firstRun fetchedA1 = some rs2 →
        rs2.changesDetected = firstRun.changesDetected ∧
        rs2.state.read fetchedA1.Endpoint =
          firstRun.state.read fetchedA1.Endpoint ++
            [HashContent exampleDriver.md5Sum fetchedA1.Content]) ∧
      (c = .Changed → ∀ rs2 : RunState (List GoString),
        exampleDriver.processResult firstRun fetchedA1 = some rs2 →
        rs2.changesDetected = firstRun.changesDetected + 1 ∧
        rs2.newEndpoints = firstRun.newEndpoints) :=
  classification_total exampleDriver firstRun fetchedA1 rfl

/-- The three end-to-end scenarios on the example driver: a first fetch of
`var a=1;` is enrolled (one fingerprint, one blob, no notification); the same
content again changes nothing; `var a=2;` is a change: the blob is written, the
history has two fingerprints, every backend is called, and the failure of two
of the three backends is counted as one error. -/
theorem scenario_enroll_unchanged_changed :
    ∃ rs1 rs3 : RunState (List GoString),
      exampleDriver.processResult firstRun fetchedA1 = some rs1 ∧
      rs1.newEndpoints = 1 ∧ rs1.changesDetected = 0 ∧ rs1.errors = 0 ∧ rs1.world = [] ∧
      rs1.state.read fetchedA1.Endpoint = [str "3b313d6120"] ∧
      rs1.fs.files (str "downloads/3b313d6120") = some (str "var a=1;") ∧
      (exampleDriver.processResult rs1 fetchedA1).map (fun r => r.state.read fetchedA1.Endpoint)
        = some [str "3b313d6120"] ∧
      exampleDriver.processResults rs1 [fetchedA1, fetchedA2] = some rs3 ∧
      rs3.newEndpoints = 1 ∧ rs3.changesDetected = 1 ∧ rs3.errors = 1 ∧
      rs3.world = [str "Telegram", str "Slack", str "Discord"] ∧
      rs3.state.read fetchedA1.Endpoint = [str "3b313d6120", str "3b323d6120"] ∧
      rs3.fs.files (str "downloads/3b323d6120") = some (str "var a=2;") :=
  ⟨_, _, rfl, by decide, by decide, by decide, by decide, by decide, by decide, by decide,
    rfl, by decide, by decide, by decide, by decide, by decide, by decide⟩

/-! ## State file and run -/

theorem LoadState_of_null_text (decode : GoString → Except GoError (GoString → Option (List GoString)))
    (s : Storage) (fs : FileSystem) (data : GoString)
    (hfile : fs.files s.stateFile = some data) (hnull : jsonTrim data = str "null") :
    s.LoadState decode fs = (.nilMap, none) := by
  simp [Storage.LoadState, FileSystem.ReadFile, hfile, Unmarshal, hnull]

theorem GetPreviousHash_ne_nil_allocated (s : Storage) (state : EndpointState)
    (endpoint : GoString) (h : s.GetPreviousHash state endpoint ≠ []) :
    ∃ m, state = .table m := by
  cases state with
  | nilMap => exact absurd rfl h
  | table m => exact ⟨m, rfl⟩

/-- C13. The claim fails on the code: for a state file whose content is the
JSON text `null` (with or without white space around it), `LoadState` returns
the nil map with a nil error, and every `AddHash` on that value is a run-time
panic (assignment to an entry of a nil map), so no fingerprint is recorded. -/
theorem LoadState_null_AddHash_panics
    (decode : GoString → Except GoError (GoString → Option (List GoString)))
    (s : Storage) (fs : FileSystem) (data : GoString)
    (hfile : fs.files s.stateFile = some data) (hnull : jsonTrim data = str "null") :
    s.LoadState decode fs = (.nilMap, none) ∧
    ∀ endpoint hash : GoString, s.AddHash (s.LoadState decode fs).1 endpoint hash = none := by
  have h := LoadState_of_null_text decode s fs data hfile hnull
  refine ⟨h, ?_⟩
  intro endpoint hash
  rw [h]
  rfl

/-- C13 at the default store with `null` in `jsmon.json`: the history loads
without error, `AddHash` panics, and so does the run at its first successfully
fetched endpoint. -/
theorem LoadState_null_AddHash_panics_witness :
    (Storage.NewDefault.LoadState decodeStub nullStateFS = (.nilMap, none) ∧
     ∀ endpoint hash : GoString,
       Storage.NewDefault.AddHash (Storage.NewDefault.LoadState decodeStub nullStateFS).1
         endpoint hash = none) ∧
    exampleDriver.run decodeStub encodeStub (Fetcher.NewDefault flakyThenOk)
      [str "https://a.example/app.js"] [0] nullStateFS [] = none :=
  ⟨LoadState_null_AddHash_panics decodeStub Storage.NewDefault nullStateFS (str "null") rfl
    (by decide), rfl⟩

/-! ## Driver: history and blobs -/

/-- C12. The claim fails on the code in the Enrolled path: for a successful
result of an endpoint without previous fingerprint, on an allocated history,
whose blob cannot be written, the loop body still appends the new fingerprint
to the endpoint's history (`AddHash` runs before `SaveEndpointContent`); the
failure is counted as an error, no blob is written, and the history now ends
with a fingerprint that has no blob. -/
theorem enroll_appends_before_save {σ : Type} (d : Driver σ) (rs : RunState σ)
    (result : FetchResult) (hok : result.Error = none)
    (hnew : d.store.GetPreviousHash rs.state result.Endpoint = [])
    (halloc : rs.state ≠ .nilMap)
    (hsave : (d.store.SaveEndpointContent d.Join rs.fs
      (HashContent d.md5Sum result.Content) result.Content).1 ≠ none) :
    ∃ rs2 : RunState σ,
      d.processResult rs result = some rs2 ∧
      rs2.state.read result.Endpoint =
        rs.state.read result.Endpoint ++ [HashContent d.md5Sum result.Content] ∧
      d.store.GetPreviousHash rs2.state result.Endpoint =
        HashContent d.md5Sum result.Content ∧
      rs2.fs.files = rs.fs.files ∧
      rs2.errors = rs.errors + 1 ∧
      rs2.newEndpoints = rs.newEndpoints := by
  have hc : classify (d.store.GetPreviousHash rs.state result.Endpoint)
      (HashContent d.md5Sum result.Content) = .Enrolled :=
    (classify_cases _ _).1.mpr hnew
  obtain ⟨state2, hadd⟩ := Option.isSome_iff_exists.mp
    (AddHashes_isSome d.store result.Endpoint [HashContent d.md5Sum result.Content]
      rs.state halloc)
  have hadd1 : d.store.AddHash rs.state result.Endpoint
      (HashContent d.md5Sum result.Content) = some state2 := by
    simp only [Storage.AddHashes] at hadd
    cases h : d.store.AddHash rs.state result.Endpoint (HashContent d.md5Sum result.Content) with
    | none => simp [h] at hadd
    | some st => simp only [h, Option.some.injEq] at hadd; rw [hadd]
  have hread := AddHash_read_same d.store rs.state state2 result.Endpoint _ hadd1
  have hfiles : (d.store.SaveEndpointContent d.Join rs.fs
      (HashContent d.md5Sum result.Content) result.Content).2 = rs.fs := by
    unfold Storage.SaveEndpointContent FileSystem.WriteFile at hsave ⊢
    cases hw : rs.fs.writeErr (d.Join d.store.downloadsDir (HashContent d.md5Sum result.Content)) with
    | none => simp [hw] at hsave
    | some e => simp [hw]
  cases hs : d.store.SaveEndpointContent d.Join rs.fs
      (HashContent d.md5Sum result.Content) result.Content with
  | mk e fs2 =>
    rw [hs] at hsave hfiles
    simp only at hsave hfiles
    cases e with
    | none => exact absurd rfl hsave
    | some err =>
      refine ⟨{ rs with state := state2, fs := fs2, errors := rs.errors + 1 }, ?_, hread, ?_,
        by simp [hfiles], rfl, rfl⟩
      · simp only [Driver.processResult, hok, hc, hadd1, hs]
      · rw [GetPreviousHash_eq_getLast, hread]
        simp

/-- C12 at the first run on a store in which no file can be written: the
fingerprint of `var a=1;` is in the history, the store has no blob for it. -/
theorem enroll_appends_before_save_witness :
    ∃ rs2 : RunState (List GoString),
      exampleDriver.processResult firstRunReadOnly fetchedA1 = some rs2 ∧
      rs2.state.read fetchedA1.Endpoint =
        firstRunReadOnly.state.read fetchedA1.Endpoint ++
          [HashContent exampleDriver.md5Sum fetchedA1.Content] ∧
      exampleDriver.store.GetPreviousHash rs2.state fetchedA1.Endpoint =
        HashContent exampleDriver.md5Sum fetchedA1.Content ∧
      rs2.fs.files = firstRunReadOnly.fs.files ∧
      rs2.errors = firstRunReadOnly.errors + 1 ∧
      rs2.newEndpoints = firstRunReadOnly.newEndpoints :=
  enroll_appends_before_save exampleDriver firstRunReadOnly fetchedA1 rfl (by decide)
    (by simp [firstRunReadOnly]) (by decide)

/-- The Changed path does what the Enrolled path misses: when the new blob
cannot be written the history is left as it was. -/
theorem changed_save_fails_history_kept {σ : Type} (d : Driver σ) (rs : RunState σ)
    (result : FetchResult) (hok : result.Error = none)
    (hchanged : classify (d.store.GetPreviousHash rs.state result.Endpoint)
      (HashContent d.md5Sum result.Content) = .Changed)
    (hsave : (d.store.SaveEndpointContent d.Join rs.fs
      (HashContent d.md5Sum result.Content) result.Content).1 ≠ none) :
    ∃ rs2 : RunState σ,
      d.processResult rs result = some rs2 ∧ rs2.state = rs.state ∧
      rs2.errors = rs.errors + 1 := by
  cases hs : d.store.SaveEndpointContent d.Join rs.fs
      (HashContent d.md5Sum result.Content) result.Content with
  | mk e fs2 =>
    rw [hs] at hsave
    cases e with
    | none => exact absurd rfl hsave
    | some err =>
      exact ⟨{ rs with fs := fs2, changesDetected := rs.changesDetected + 1,
                       errors := rs.errors + 1 },
        by simp only [Driver.processResult, hok, hchanged, hs], rfl, rfl⟩

theorem HashContent_ne_nil (md5Sum : GoString → Digest16) (x : GoString) :
    HashContent md5Sum x ≠ [] := by
  intro h
  have hlen : (HashContent md5Sum x).length = 10 := by
    simp [HashContent, List.length_take, Sprintf_x_length, (md5Sum x).size]
  rw [h] at hlen
  simp at hlen

theorem MarshalIndent_ok (encode : (GoString → Option (List GoString)) → GoString)
    (state : EndpointState) : (MarshalIndent encode state).2 = none := by
  cases state <;> rfl

/-- Saving the history and loading it again, when the state file can be
written: the file holds the encoded history, and `LoadState` returns what the
decoder makes of it. -/
theorem SaveState_then_LoadState
    (decode : GoString → Except GoError (GoString → Option (List GoString)))
    (encode : (GoString → Option (List GoString)) → GoString)
    (s : Storage) (fs : FileSystem) (state state3 : EndpointState)
    (hwrite : fs.writeErr s.stateFile = none)
    (hcodec : Unmarshal decode (MarshalIndent encode state).1 = (none, state3)) :
    (s.SaveState encode fs state).1 = none ∧
    (s.SaveState encode fs state).2.files s.stateFile = some (MarshalIndent encode state).1 ∧
    s.LoadState decode (s.SaveState encode fs state).2 = (state3, none) := by
  have hm := MarshalIndent_ok encode state
  cases hM : MarshalIndent encode state with
  | mk data e =>
    rw [hM] at hm hcodec
    simp only at hm hcodec
    subst hm
    have hsave : s.SaveState encode fs state =
        (none, { fs with files := fun p => if p = s.stateFile then some data else fs.files p }) := by
      simp [Storage.SaveState, hM, FileSystem.WriteFile, hwrite]
    rw [hsave]
    refine ⟨rfl, by simp, ?_⟩
    simp [Storage.LoadState, FileSystem.ReadFile, hcodec]

/-- A result whose content has the fingerprint the history ends with is
classified Unchanged, and the loop body leaves the run state as it is. -/
theorem same_content_unchanged {σ : Type} (d : Driver σ) (rs : RunState σ)
    (result : FetchResult) (hok : result.Error = none)
    (hlast : (rs.state.read result.Endpoint).getLast? =
      some (HashContent d.md5Sum result.Content)) :
    classify (d.store.GetPreviousHash rs.state result.Endpoint)
      (HashContent d.md5Sum result.Content) = .Unchanged ∧
    d.processResult rs result = some rs := by
  have hprev : d.store.GetPreviousHash rs.state result.Endpoint =
      HashContent d.md5Sum result.Content := by
    rw [GetPreviousHash_eq_getLast, hlast]; rfl
  have hc : classify (d.store.GetPreviousHash rs.state result.Endpoint)
      (HashContent d.md5Sum result.Content) = .Unchanged := by
    apply (classify_cases _ _).2.1.mpr
    exact ⟨by rw [hprev]; exact HashContent_ne_nil _ _, hprev⟩
  exact ⟨hc, by simp only [Driver.processResult, hok, hc]⟩

/-- When the beautifier returns on both contents, whatever it returns, the
method `GenerateHTMLDiff` returns a page and a nil error. -/
theorem GenerateHTMLDiff_returns (d : Differ)
    (Beautify : GoString → Option (GoString × Option GoError))
    (DiffMain : GoString → GoString → List Diff) (oldContent newContent : GoString)
    (h1 : Beautify oldContent ≠ none) (h2 : Beautify newContent ≠ none) :
    ∃ page : GoString,
      d.GenerateHTMLDiff Beautify DiffMain oldContent newContent = some (page, none) := by
  unfold Differ.GenerateHTMLDiff
  cases h1b : Beautify oldContent with
  | none => exact absurd h1b h1
  | some r1 =>
    cases h2b : Beautify newContent with
    | none => exact absurd h2b h2
    | some r2 => exact ⟨_, rfl⟩

/-- The changed path after a successful save, when the beautifier does not
panic: the loop body returns, with the blob written, the new fingerprint
appended, one change counted, and one error counted exactly when a later step
fails. -/
theorem changed_path_result {σ : Type} (d : Driver σ) (rs : RunState σ)
    (result : FetchResult) (hok : result.Error = none)
    (hchanged : classify (d.store.GetPreviousHash rs.state result.Endpoint)
      (HashContent d.md5Sum result.Content) = .Changed)
    (hsave : (d.store.SaveEndpointContent d.Join rs.fs
      (HashContent d.md5Sum result.Content) result.Content).1 = none)
    (hreturns : ¬ d.diffPanics rs result) :
    ∃ rs2 : RunState σ,
      d.processResult rs result = some rs2 ∧
      rs2.state.read result.Endpoint =
        rs.state.read result.Endpoint ++ [HashContent d.md5Sum result.Content] ∧
      rs2.fs = (d.store.SaveEndpointContent d.Join rs.fs
        (HashContent d.md5Sum result.Content) result.Content).2 ∧
      rs2.changesDetected = rs.changesDetected + 1 ∧
      rs2.newEndpoints = rs.newEndpoints ∧
      (d.laterStepFails rs result → rs2.errors = rs.errors + 1) ∧
      (¬ d.laterStepFails rs result → rs2.errors = rs.errors) := by
  obtain ⟨hne, -⟩ := (classify_cases _ _).2.2.mp hchanged
  obtain ⟨m, hm⟩ := GetPreviousHash_ne_nil_allocated d.store rs.state result.Endpoint hne
  have hadd : d.store.AddHash rs.state result.Endpoint (HashContent d.md5Sum result.Content) =
      some (.table (fun k2 => if k2 = result.Endpoint then
        some ((m result.Endpoint).getD [] ++ [HashContent d.md5Sum result.Content])
        else m k2)) := by
    rw [hm]; rfl
  have hread := AddHash_read_same d.store rs.state _ result.Endpoint _ hadd
  revert hreturns
  unfold Driver.laterStepFails Driver.diffPanics
  cases hs : d.store.SaveEndpointContent d.Join rs.fs
      (HashContent d.md5Sum result.Content) result.Content with
  | mk e fs2 =>
    rw [hs] at hsave
    simp only at hsave
    subst hsave
    simp only [Driver.processResult, hok, hchanged, hs, hadd]
    cases hL : d.store.LoadEndpointContent d.Join fs2
        (d.store.GetPreviousHash rs.state result.Endpoint) with
    | mk oldContent eL =>
      cases eL with
      | some e =>
        dsimp only
        intro _
        exact ⟨_, rfl, hread, rfl, rfl, rfl, fun _ => rfl,
          fun h => absurd (Or.inl (by simp)) h⟩
      | none =>
        dsimp only
        cases hS1 : d.store.GetFileSize d.Join fs2
            (d.store.GetPreviousHash rs.state result.Endpoint) with
        | mk oldSize e1 =>
          cases e1 with
          | some e =>
            dsimp only
            intro _
            exact ⟨_, rfl, hread, rfl, rfl, rfl, fun _ => rfl,
              fun h => absurd (Or.inr (Or.inl (by simp))) h⟩
          | none =>
            dsimp only
            cases hS2 : d.store.GetFileSize d.Join fs2 (HashContent d.md5Sum result.Content) with
            | mk newSize e2 =>
              cases e2 with
              | some e =>
                dsimp only
                intro _
                exact ⟨_, rfl, hread, rfl, rfl, rfl, fun _ => rfl,
                  fun h => absurd (Or.inr (Or.inr (Or.inl (by simp)))) h⟩
              | none =>
                dsimp only
                intro hreturns
                have hb1 : d.Beautify oldContent ≠ none := fun hb =>
                  hreturns ⟨rfl, rfl, rfl, Or.inl hb⟩
                have hb2 : d.Beautify result.Content ≠ none := fun hb =>
                  hreturns ⟨rfl, rfl, rfl, Or.inr hb⟩
                obtain ⟨diffHTML, hG⟩ := GenerateHTMLDiff_returns d.differ d.Beautify
                  d.DiffMain oldContent result.Content hb1 hb2
                rw [hG]
                dsimp only
                cases hN : d.multiNotifier.Notify
                    { Endpoint := result.Endpoint,
                      OldHash := d.store.GetPreviousHash rs.state result.Endpoint,
                      NewHash := HashContent d.md5Sum result.Content,
                      OldSize := oldSize, NewSize := newSize, DiffHTML := diffHTML,
                      DiffContent := [] } rs.world with
                | mk eN w2 =>
                  cases eN with
                  | some e =>
                    dsimp only
                    refine ⟨_, rfl, hread, rfl, rfl, rfl, fun _ => rfl, fun h => absurd ?_ h⟩
                    refine Or.inr (Or.inr (Or.inr (Or.inr ⟨diffHTML, rfl, ?_⟩)))
                    rw [hN]
                    simp
                  | none =>
                    dsimp only
                    refine ⟨_, rfl, hread, rfl, rfl, rfl, ?_, fun _ => rfl⟩
                    intro h
                    rcases h with h | h | h | h | h
                    · exact absurd rfl h
                    · exact absurd rfl h
                    · exact absurd rfl h
                    · obtain ⟨page, err, h⟩ := h
                      simp at h
                    · obtain ⟨page, h, hn⟩ := h
                      simp only [Option.some.injEq, Prod.mk.injEq, and_true] at h
                      subst h
                      rw [hN] at hn
                      exact absurd rfl hn

/-- For every result classified Changed whose new blob is written successfully,
when the beautifier does not panic: the loop body returns with the new
fingerprint appended to the endpoint's history and one change counted, whatever
the later steps (loading the old content, the size lookups, the diff, the
notification) return; when one of them fails one error is counted, and none
otherwise. The end of `main` saves that history whatever the error count (and
exits with status 1 when an error was counted). A next run that loads the saved
history, the endpoint's sequence read back as it was written, classifies the
same content Unchanged and its loop body leaves the run state, the notified
world included, as it is. -/
theorem changed_path_records_hash {σ : Type} (d : Driver σ) (rs : RunState σ)
    (result : FetchResult) (hok : result.Error = none)
    (hchanged : classify (d.store.GetPreviousHash rs.state result.Endpoint)
      (HashContent d.md5Sum result.Content) = .Changed)
    (hsave : (d.store.SaveEndpointContent d.Join rs.fs
      (HashContent d.md5Sum result.Content) result.Content).1 = none)
    (hreturns : ¬ d.diffPanics rs result) :
    ∃ rs2 : RunState σ,
      d.processResult rs result = some rs2 ∧
      rs2.state.read result.Endpoint =
        rs.state.read result.Endpoint ++ [HashContent d.md5Sum result.Content] ∧
      (rs2.state.read result.Endpoint).getLast? = some (HashContent d.md5Sum result.Content) ∧
      rs2.changesDetected = rs.changesDetected + 1 ∧
      (d.laterStepFails rs result → rs2.errors = rs.errors + 1) ∧
      (¬ d.laterStepFails rs result → rs2.errors = rs.errors) ∧
      (∀ (decode : GoString → Except GoError (GoString → Option (List GoString)))
          (encode : (GoString → Option (List GoString)) → GoString) (state3 : EndpointState),
        rs2.fs.writeErr d.store.stateFile = none →
        Unmarshal decode (MarshalIndent encode rs2.state).1 = (none, state3) →
        state3.read result.Endpoint = rs2.state.read result.Endpoint →
        (d.saveAndExit encode rs2).2.files d.store.stateFile =
          some (MarshalIndent encode rs2.state).1 ∧
        (d.laterStepFails rs result → 0 ≤ rs.errors →
          (d.saveAndExit encode rs2).1 = .status 1) ∧
        d.store.LoadState decode (d.saveAndExit encode rs2).2 = (state3, none) ∧
        ∀ (rsNext : RunState σ) (resultNext : FetchResult),
          rsNext.state = state3 → resultNext.Error = none →
          resultNext.Endpoint = result.Endpoint → resultNext.Content = result.Content →
          classify (d.store.GetPreviousHash rsNext.state resultNext.Endpoint)
            (HashContent d.md5Sum resultNext.Content) = .Unchanged ∧
          d.processResult rsNext resultNext = some rsNext) := by
  obtain ⟨rs2, hrun, hread, -, hcd, -, hfail, hnofail⟩ :=
    changed_path_result d rs result hok hchanged hsave hreturns
  have hlast : (rs2.state.read result.Endpoint).getLast? =
      some (HashContent d.md5Sum result.Content) := by
    rw [hread]; simp
  refine ⟨rs2, hrun, hread, hlast, hcd, hfail, hnofail, ?_⟩
  intro decode encode state3 hwrite hcodec hentry
  obtain ⟨hs1, hs2, hs3⟩ :=
    SaveState_then_LoadState decode encode d.store rs2.fs rs2.state state3 hwrite hcodec
  have hexit : d.saveAndExit encode rs2 =
      (if rs2.errors > 0 then .status 1 else .status 0,
       (d.store.SaveState encode rs2.fs rs2.state).2) := by
    unfold Driver.saveAndExit
    cases hS : d.store.SaveState encode rs2.fs rs2.state with
    | mk e fs3 =>
      rw [hS] at hs1
      simp only at hs1
      subst hs1
      rfl
  rw [hexit]
  refine ⟨hs2, ?_, hs3, ?_⟩
  · intro hf hpos
    have := hfail hf
    have hgt : rs2.errors > 0 := by omega
    simp [hgt]
  · intro rsNext resultNext hst hokNext hep hcontent
    apply same_content_unchanged d rsNext resultNext hokNext
    rw [hst, hep, hcontent, hentry, hlast]

/-- The changed path evaluated on the examples, where the beautifier returns:
the change to `var a=2;` is notified to three backends of which two fail, one
error is counted, the run ends with status 1 and saves the history
`3b313d6120,3b323d6120`; the next run loads it, and on the same content leaves
history, counters and notified world unchanged. -/
theorem scenario_changed_not_renotified :
    ∃ rs2 : RunState (List GoString),
      exampleDriver.processResult secondRun fetchedA2 = some rs2 ∧
      rs2.errors = 1 ∧ rs2.world = [str "Telegram", str "Slack", str "Discord"] ∧
      (exampleDriver.saveAndExit encodeOne rs2).1 = .status 1 ∧
      (exampleDriver.saveAndExit encodeOne rs2).2.files (str "jsmon.json") =
        some (str "3b313d6120,3b323d6120") ∧
      (exampleDriver.store.LoadState decodeOne (exampleDriver.saveAndExit encodeOne rs2).2).2
        = none ∧
      (exampleDriver.store.LoadState decodeOne
        (exampleDriver.saveAndExit encodeOne rs2).2).1.read fetchedA2.Endpoint =
        [str "3b313d6120", str "3b323d6120"] ∧
      (exampleDriver.processResult
        { rs2 with state := (exampleDriver.store.LoadState decodeOne
            (exampleDriver.saveAndExit encodeOne rs2).2).1, world := [] } fetchedA2).map
        (fun r => (r.world, r.errors, r.changesDetected, r.state.read fetchedA2.Endpoint)) =
        some ([], 1, 1, [str "3b313d6120", str "3b323d6120"]) :=
  ⟨_, rfl, by decide, by decide, by decide, by decide, by decide, by decide, by decide⟩

/-! ## IsValidURL -/

theorem plusEnds_sound (a : Regex) (f : GoString → List Nat)
    (hf : ∀ (t : GoString) (n : Nat), n ∈ f t →
      ∃ u v : GoString, t = u ++ v ∧ u.length = n ∧ Regex.Matches a u)
    (fuel : Nat) :
    ∀ (s : GoString) (n : Nat), n ∈ plusEnds f fuel s →
      ∃ u v : GoString, s = u ++ v ∧ u.length = n ∧ Regex.Matches (.plus a) u := by
  induction fuel with
  | zero => intro s n h; simp [plusEnds] at h
  | succ fuel ih =>
    intro s n h
    simp only [plusEnds, List.mem_flatMap, List.mem_cons] at h
    obtain ⟨i, hi, hn⟩ := h
    obtain ⟨u, v, hs, hlen, hu⟩ := hf s i hi
    rcases hn with hn | hn
    · exact ⟨u, v, hs, by omega, .plusOne a u hu⟩
    · by_cases h0 : i = 0
      · simp [h0] at hn
      · simp only [h0, if_false, List.mem_map] at hn
        obtain ⟨j, hj, hnj⟩ := hn
        have hdrop : s.drop i = v := by
          rw [hs, ← hlen]; simp
        rw [hdrop] at hj
        obtain ⟨u2, v2, hv, hlen2, hu2⟩ := ih v j hj
        refine ⟨u ++ u2, v2, ?_, ?_, .plusMore a u u2 hu hu2⟩
        · rw [hs, hv]; simp
        · simp; omega

/-- Every match the matcher reports is a match of the expression. -/
theorem ends_sound (r : Regex) :
    ∀ (s : GoString) (n : Nat), n ∈ r.ends s →
      ∃ u v : GoString, s = u ++ v ∧ u.length = n ∧ Regex.Matches r u := by
  induction r with
  | empty =>
    intro s n h
    simp only [Regex.ends, List.mem_singleton] at h
    exact ⟨[], s, rfl, by simp [h], .empty⟩
  | cls p =>
    intro s n h
    cases s with
    | nil => simp [Regex.ends] at h
    | cons c rest =>
      by_cases hp : p c = true
      · simp only [Regex.ends, hp, if_true, List.mem_singleton] at h
        exact ⟨[c], rest, rfl, by simp [h], .cls p c hp⟩
      · simp [Regex.ends, hp] at h
  | lit t =>
    intro s n h
    by_cases ht : s.take t.length = t
    · simp only [Regex.ends, ht, if_true, List.mem_singleton] at h
      refine ⟨t, s.drop t.length, ?_, h.symm, .lit t⟩
      conv_lhs => rw [← List.take_append_drop t.length s]
      rw [ht]
    · simp [Regex.ends, ht] at h
  | cat a b iha ihb =>
    intro s n h
    simp only [Regex.ends, List.mem_flatMap, List.mem_map] at h
    obtain ⟨i, hi, j, hj, hn⟩ := h
    obtain ⟨u, v, hs, hlen, hu⟩ := iha s i hi
    have hdrop : s.drop i = v := by
      rw [hs, ← hlen]; simp
    rw [hdrop] at hj
    obtain ⟨u2, v2, hv, hlen2, hu2⟩ := ihb v j hj
    refine ⟨u ++ u2, v2, ?_, ?_, .cat a b u u2 hu hu2⟩
    · rw [hs, hv]; simp
    · simp; omega
  | alt a b iha ihb =>
    intro s n h
    simp only [Regex.ends, List.mem_append] at h
    rcases h with h | h
    · obtain ⟨u, v, hs, hlen, hu⟩ := iha s n h
      exact ⟨u, v, hs, hlen, .altLeft a b u hu⟩
    · obtain ⟨u, v, hs, hlen, hu⟩ := ihb s n h
      exact ⟨u, v, hs, hlen, .altRight a b u hu⟩
  | plus a iha =>
    intro s n h
    simp only [Regex.ends] at h
    exact plusEnds_sound a (fun t => a.ends t) iha (s.length + 1) s n h

theorem MatchString_sound (r : Regex) (s : GoString) (h : r.MatchString s = true) :
    Regex.Matches r s := by
  simp only [Regex.MatchString, decide_eq_true_eq] at h
  obtain ⟨u, v, hs, hlen, hu⟩ := ends_sound r s s.length h
  have hv : v = [] := by
    have : s.length = u.length + v.length := by rw [hs]; simp
    exact List.length_eq_zero.mp (by omega)
  rw [hs, hv, List.append_nil]
  exact hu

theorem ends_complete_aux (r : Regex) (u : GoString) (h : Regex.Matches r u) :
    (∀ v : GoString, u.length ∈ r.ends (u ++ v)) ∧
    (∀ a : Regex, r = .plus a → ∀ (v : GoString) (fuel : Nat), (u ++ v).length < fuel →
      u.length ∈ plusEnds (fun t => a.ends t) fuel (u ++ v)) := by
  induction h with
  | empty => exact ⟨fun v => by simp [Regex.ends], fun a h => by cases h⟩
  | cls p c hp => exact ⟨fun v => by simp [Regex.ends, hp], fun a h => by cases h⟩
  | lit t => exact ⟨fun v => by simp [Regex.ends], fun a h => by cases h⟩
  | cat a b u v ha hb iha ihb =>
    refine ⟨fun w => ?_, fun a h => by cases h⟩
    simp only [Regex.ends, List.mem_flatMap, List.mem_map]
    refine ⟨u.length, ?_, v.length, ?_, by simp⟩
    · rw [List.append_assoc]; exact iha.1 (v ++ w)
    · rw [List.append_assoc, List.drop_left]; exact ihb.1 w
  | altLeft a b u ha iha =>
    exact ⟨fun v => by simp only [Regex.ends, List.mem_append]; exact Or.inl (iha.1 v),
      fun a h => by cases h⟩
  | altRight a b u hb ihb =>
    exact ⟨fun v => by simp only [Regex.ends, List.mem_append]; exact Or.inr (ihb.1 v),
      fun a h => by cases h⟩
  | plusOne a u ha iha =>
    have key : ∀ (v : GoString) (fuel : Nat), (u ++ v).length < fuel →
        u.length ∈ plusEnds (fun t => a.ends t) fuel (u ++ v) := by
      intro v fuel hfuel
      cases fuel with
      | zero => omega
      | succ fuel =>
        simp only [plusEnds, List.mem_flatMap, List.mem_cons]
        exact ⟨u.length, iha.1 v, Or.inl rfl⟩
    refine ⟨fun v => ?_, fun a2 h => ?_⟩
    · simp only [Regex.ends]
      exact key v _ (by omega)
    · cases h
      exact key
  | plusMore a u w ha hb iha ihb =>
    have key : ∀ (v : GoString) (fuel : Nat), (u ++ w ++ v).length < fuel →
        (u ++ w).length ∈ plusEnds (fun t => a.ends t) fuel (u ++ w ++ v) := by
      intro v fuel hfuel
      by_cases hu : u = []
      · subst hu
        simp only [List.nil_append] at hfuel ⊢
        exact ihb.2 a rfl v fuel hfuel
      · cases fuel with
        | zero => omega
        | succ fuel =>
          have hpos : 0 < u.length := List.length_pos.mpr hu
          simp only [plusEnds, List.mem_flatMap, List.mem_cons]
          refine ⟨u.length, ?_, Or.inr ?_⟩
          · rw [List.append_assoc]; exact iha.1 (w ++ v)
          · have hne : u.length ≠ 0 := by omega
            simp only [hne, if_false, List.mem_map]
            refine ⟨w.length, ?_, by simp⟩
            rw [List.append_assoc, List.drop_left]
            apply ihb.2 a rfl v fuel
            simp only [List.length_append] at hfuel ⊢
            omega
    refine ⟨fun v => ?_, fun a2 h => ?_⟩
    · simp only [Regex.ends]
      exact key v _ (by omega)
    · cases h
      exact key

/-- The matcher decides the language of the expression: `MatchString` is true
exactly for the texts the expression matches. -/
theorem MatchString_iff (r : Regex) (s : GoString) :
    r.MatchString s = true ↔ Regex.Matches r s := by
  constructor
  · exact MatchString_sound r s
  · intro h
    have := (ends_complete_aux r s h).1 []
    simpa [Regex.MatchString] using this

/-! ### Reading a match -/

theorem Matches_empty (t : GoString) (h : Regex.Matches .empty t) : t = [] := by
  cases h; rfl

theorem Matches_cls (p : Byte → Bool) (t : GoString) (h : Regex.Matches (.cls p) t) :
    ∃ c : Byte, t = [c] ∧ p c = true := by
  cases h with
  | cls _ c hp => exact ⟨c, rfl, hp⟩

theorem Matches_lit (w t : GoString) (h : Regex.Matches (.lit w) t) : t = w := by
  cases h; rfl

theorem Matches_cat (a b : Regex) (t : GoString) (h : Regex.Matches (.cat a b) t) :
    ∃ u v : GoString, t = u ++ v ∧ Regex.Matches a u ∧ Regex.Matches b v := by
  cases h with
  | cat _ _ u v ha hb => exact ⟨u, v, rfl, ha, hb⟩

theorem Matches_alt (a b : Regex) (t : GoString) (h : Regex.Matches (.alt a b) t) :
    Regex.Matches a t ∨ Regex.Matches b t := by
  cases h with
  | altLeft _ _ _ ha => exact Or.inl ha
  | altRight _ _ _ hb => exact Or.inr hb

theorem Matches_opt (a : Regex) (t : GoString) (h : Regex.Matches a.opt t) :
    Regex.Matches a t ∨ t = [] := by
  rcases Matches_alt _ _ t h with h | h
  · exact Or.inl h
  · exact Or.inr (Matches_empty t h)

theorem Matches_plus_aux (r : Regex) (t : GoString) (h : Regex.Matches r t) :
    ∀ a : Regex, r = .plus a →
      ∃ units : List GoString, 1 ≤ units.length ∧ t = units.flatten ∧
        ∀ u ∈ units, Regex.Matches a u := by
  induction h with
  | empty => intro a h; cases h
  | cls p c hp => intro a h; cases h
  | lit t => intro a h; cases h
  | cat a b u v ha hb _ _ => intro a h; cases h
  | altLeft a b u ha _ => intro a h; cases h
  | altRight a b u hb _ => intro a h; cases h
  | plusOne a u ha _ =>
    intro a2 h
    cases h
    exact ⟨[u], by simp, by simp, by simpa using ha⟩
  | plusMore a u v ha hb _ ihb =>
    intro a2 h
    cases h
    obtain ⟨units, hlen, hv, hall⟩ := ihb a rfl
    refine ⟨u :: units, by simp, by simp [hv], ?_⟩
    intro x hx
    rcases List.mem_cons.mp hx with hx | hx
    · rw [hx]; exact ha
    · exact hall x hx

theorem Matches_plus (a : Regex) (t : GoString) (h : Regex.Matches (.plus a) t) :
    ∃ units : List GoString, 1 ≤ units.length ∧ t = units.flatten ∧
      ∀ u ∈ units, Regex.Matches a u :=
  Matches_plus_aux _ t h a rfl

theorem Matches_times (a : Regex) (n : Nat) :
    ∀ t : GoString, Regex.Matches (a.times n) t →
      ∃ units : List GoString, units.length = n ∧ t = units.flatten ∧
        ∀ u ∈ units, Regex.Matches a u := by
  induction n with
  | zero =>
    intro t h
    exact ⟨[], rfl, by simp [Matches_empty t h], by simp⟩
  | succ n ih =>
    intro t h
    obtain ⟨u, v, ht, hu, hv⟩ := Matches_cat _ _ t h
    obtain ⟨units, hlen, hflat, hall⟩ := ih v hv
    refine ⟨u :: units, by simp [hlen], by simp [ht, hflat], ?_⟩
    intro x hx
    rcases List.mem_cons.mp hx with hx | hx
    · rw [hx]; exact hu
    · exact hall x hx

theorem Matches_upTo (a : Regex) (n : Nat) :
    ∀ t : GoString, Regex.Matches (a.upTo n) t →
      ∃ units : List GoString, units.length ≤ n ∧ t = units.flatten ∧
        ∀ u ∈ units, Regex.Matches a u := by
  induction n with
  | zero =>
    intro t h
    exact ⟨[], by simp, by simp [Matches_empty t h], by simp⟩
  | succ n ih =>
    intro t h
    rcases Matches_opt _ t h with h | h
    · obtain ⟨u, v, ht, hu, hv⟩ := Matches_cat _ _ t h
      obtain ⟨units, hlen, hflat, hall⟩ := ih v hv
      refine ⟨u :: units, by simp; omega, by simp [ht, hflat], ?_⟩
      intro x hx
      rcases List.mem_cons.mp hx with hx | hx
      · rw [hx]; exact hu
      · exact hall x hx
    · exact ⟨[], by simp, by simp [h], by simp⟩

theorem Matches_rep (a : Regex) (lo hi : Nat) (t : GoString)
    (h : Regex.Matches (a.rep lo hi) t) :
    ∃ units : List GoString, lo ≤ units.length ∧ units.length ≤ lo + (hi - lo) ∧
      t = units.flatten ∧ ∀ u ∈ units, Regex.Matches a u := by
  obtain ⟨u, v, ht, hu, hv⟩ := Matches_cat _ _ t h
  obtain ⟨us, hlen1, hflat1, hall1⟩ := Matches_times a lo u hu
  obtain ⟨vs, hlen2, hflat2, hall2⟩ := Matches_upTo a (hi - lo) v hv
  refine ⟨us ++ vs, by simp; omega, by simp; omega, by simp [ht, hflat1, hflat2], ?_⟩
  intro x hx
  rcases List.mem_append.mp hx with hx | hx
  · exact hall1 x hx
  · exact hall2 x hx

theorem Matches_atLeast (a : Regex) (n : Nat) (t : GoString)
    (h : Regex.Matches (a.atLeast n) t) :
    ∃ units : List GoString, n ≤ units.length ∧ t = units.flatten ∧
      ∀ u ∈ units, Regex.Matches a u := by
  obtain ⟨u, v, ht, hu, hv⟩ := Matches_cat _ _ t h
  obtain ⟨us, hlen1, hflat1, hall1⟩ := Matches_times a (n - 1) u hu
  obtain ⟨vs, hlen2, hflat2, hall2⟩ := Matches_plus a v hv
  refine ⟨us ++ vs, by simp; omega, by simp [ht, hflat1, hflat2], ?_⟩
  intro x hx
  rcases List.mem_append.mp hx with hx | hx
  · exact hall1 x hx
  · exact hall2 x hx

/-- No byte that the expression avoids occurs in a text it matches. -/
theorem Matches_avoids (P : Byte → Bool) (r : Regex) (t : GoString)
    (h : Regex.Matches r t) : Regex.avoids P r = true → ∀ c ∈ t, P c = false := by
  induction h with
  | empty => intro _ c hc; simp at hc
  | cls p c hp =>
    intro hav b hb
    simp only [List.mem_singleton] at hb
    subst hb
    simp only [Regex.avoids, List.all_eq_true] at hav
    have := hav b (List.mem_finRange b)
    simpa [hp] using this
  | lit t =>
    intro hav c hc
    simp only [Regex.avoids, List.all_eq_true] at hav
    simpa using hav c hc
  | cat a b u v _ _ iha ihb =>
    intro hav c hc
    simp only [Regex.avoids, Bool.and_eq_true] at hav
    rcases List.mem_append.mp hc with hc | hc
    · exact iha hav.1 c hc
    · exact ihb hav.2 c hc
  | altLeft a b u _ iha =>
    intro hav c hc
    simp only [Regex.avoids, Bool.and_eq_true] at hav
    exact iha hav.1 c hc
  | altRight a b u _ ihb =>
    intro hav c hc
    simp only [Regex.avoids, Bool.and_eq_true] at hav
    exact ihb hav.2 c hc
  | plusOne a u _ iha =>
    intro hav c hc
    exact iha (by simpa [Regex.avoids] using hav) c hc
  | plusMore a u v _ _ iha ihb =>
    intro hav c hc
    rcases List.mem_append.mp hc with hc | hc
    · exact iha (by simpa [Regex.avoids] using hav) c hc
    · exact ihb hav c hc

set_option maxRecDepth 100000 in
theorem urlPattern_avoids_space : Regex.avoids isSpace urlPattern = true := by
  decide

/-! ### From the parts of the pattern to the shape -/

theorem foldChar_FoldsTo (c : Byte) (u : GoString) (h : Regex.Matches (foldChar c) u) :
    FoldsTo u c := by
  have hcls : ∀ v : GoString,
      Regex.Matches (.cls (fun b => b = c || b = c - 32)) v → FoldsTo v c := by
    intro v hv
    obtain ⟨b, hb, hp⟩ := Matches_cls _ v hv
    simp only [Bool.or_eq_true, decide_eq_true_eq] at hp
    rcases hp with hp | hp
    · exact Or.inl (by rw [hb, hp])
    · exact Or.inr (Or.inl (by rw [hb, hp]))
  unfold foldChar at h
  by_cases hs : c = 115
  · rw [if_pos hs] at h
    rcases Matches_alt _ _ u h with h | h
    · exact hcls u h
    · exact Or.inr (Or.inr (Or.inl ⟨hs, Matches_lit _ u h⟩))
  · rw [if_neg hs] at h
    by_cases hk : c = 107
    · rw [if_pos hk] at h
      rcases Matches_alt _ _ u h with h | h
      · exact hcls u h
      · exact Or.inr (Or.inr (Or.inr ⟨hk, Matches_lit _ u h⟩))
    · rw [if_neg hk] at h
      exact hcls u h

theorem foldWord_EqualFold (w : GoString) :
    ∀ t : GoString, Regex.Matches (foldWord w) t → EqualFold t w := by
  induction w with
  | nil =>
    intro t h
    exact ⟨[], by simp [Matches_empty t h], .nil⟩
  | cons c rest ih =>
    intro t h
    obtain ⟨u, v, ht, hu, hv⟩ := Matches_cat _ _ t h
    obtain ⟨units, hflat, hall⟩ := ih v hv
    exact ⟨u :: units, by simp [ht, hflat], .cons (foldChar_FoldsTo c u hu) hall⟩

theorem EqualFold_append (t1 t2 w1 w2 : GoString) (h1 : EqualFold t1 w1)
    (h2 : EqualFold t2 w2) : EqualFold (t1 ++ t2) (w1 ++ w2) := by
  obtain ⟨u1, hf1, ha1⟩ := h1
  obtain ⟨u2, hf2, ha2⟩ := h2
  exact ⟨u1 ++ u2, by simp [hf1, hf2], List.rel_append ha1 ha2⟩

theorem schemePart_IsScheme (t : GoString) (h : Regex.Matches schemePart t) : IsScheme t := by
  obtain ⟨u, v, ht, hu, hv⟩ := Matches_cat _ _ t h
  have hword : EqualFold u (str "http") ∨ EqualFold u (str "ftp") := by
    rcases Matches_alt _ _ u hu with hu | hu
    · exact Or.inl (foldWord_EqualFold _ u hu)
    · exact Or.inr (foldWord_EqualFold _ u hu)
  rcases Matches_opt _ v hv with hv | hv
  · have hs : EqualFold v (str "s") :=
      ⟨[v], by simp, .cons (foldChar_FoldsTo 115 v hv) .nil⟩
    rcases hword with hw | hw
    · exact Or.inr (Or.inl (by rw [ht]; exact EqualFold_append u v _ _ hw hs))
    · exact Or.inr (Or.inr (Or.inr (by rw [ht]; exact EqualFold_append u v _ _ hw hs)))
  · rw [ht, hv, List.append_nil]
    rcases hword with hw | hw
    · exact Or.inl hw
    · exact Or.inr (Or.inr (Or.inl hw))

theorem letterClass_unit (u : GoString) (h : Regex.Matches letterClass u) : IsLetterUnit u := by
  rcases Matches_alt _ _ u h with h | h
  · obtain ⟨c, hc, hp⟩ := Matches_cls _ u h
    exact Or.inl ⟨c, hc, hp⟩
  · rcases Matches_alt _ _ u h with h | h
    · exact Or.inr (Or.inl (Matches_lit _ u h))
    · exact Or.inr (Or.inr (Matches_lit _ u h))

theorem alnumClass_unit (u : GoString) (h : Regex.Matches alnumClass u) : IsAlnumUnit u := by
  rcases Matches_alt _ _ u h with h | h
  · obtain ⟨c, hc, hp⟩ := Matches_cls _ u h
    simp only [Bool.or_eq_true] at hp
    rcases hp with hp | hp
    · exact Or.inl (Or.inl ⟨c, hc, hp⟩)
    · exact Or.inr ⟨c, hc, hp⟩
  · rcases Matches_alt _ _ u h with h | h
    · exact Or.inl (Or.inr (Or.inl (Matches_lit _ u h)))
    · exact Or.inl (Or.inr (Or.inr (Matches_lit _ u h)))

theorem alnumHyphenClass_unit (u : GoString) (h : Regex.Matches alnumHyphenClass u) :
    IsLDHUnit u := by
  rcases Matches_alt _ _ u h with h | h
  · obtain ⟨c, hc, hp⟩ := Matches_cls _ u h
    simp only [Bool.or_eq_true, decide_eq_true_eq] at hp
    rcases hp with (hp | hp) | hp
    · exact Or.inl (Or.inl (Or.inl ⟨c, hc, hp⟩))
    · exact Or.inl (Or.inr ⟨c, hc, hp⟩)
    · exact Or.inr (by rw [hc, hp]; rfl)
  · rcases Matches_alt _ _ u h with h | h
    · exact Or.inl (Or.inl (Or.inr (Or.inl (Matches_lit _ u h))))
    · exact Or.inl (Or.inl (Or.inr (Or.inr (Matches_lit _ u h))))

theorem labelPart_IsLabel (l : GoString) (h : Regex.Matches labelPart l) : IsLabel l := by
  obtain ⟨u0, r, hl, hu0, hr⟩ := Matches_cat _ _ l h
  have h0 := alnumClass_unit u0 hu0
  rcases Matches_opt _ r hr with hr | hr
  · obtain ⟨m, u1, hrm, hm, hu1⟩ := Matches_cat _ _ r hr
    have h1 := alnumClass_unit u1 hu1
    obtain ⟨ms, -, hlen, hflat, hall⟩ := Matches_rep _ 0 61 m hm
    refine ⟨u0 :: (ms ++ [u1]), by simp [hl, hrm, hflat], by simp, by simp; omega, ?_, ?_, ?_⟩
    · intro x hx
      rcases List.mem_cons.mp hx with hx | hx
      · rw [hx]; exact Or.inl h0
      · rcases List.mem_append.mp hx with hx | hx
        · exact alnumHyphenClass_unit x (hall x hx)
        · rw [List.mem_singleton.mp hx]; exact Or.inl h1
    · intro x hx
      simp only [List.head?_cons, Option.some.injEq] at hx
      rw [← hx]; exact h0
    · intro x hx
      have : (u0 :: (ms ++ [u1])).getLast? = some u1 := by
        rw [← List.cons_append, List.getLast?_append]
        simp
      rw [this] at hx
      simp only [Option.some.injEq] at hx
      rw [← hx]; exact h1
  · refine ⟨[u0], by simp [hl, hr], by simp, by simp, ?_, ?_, ?_⟩
    · intro x hx
      rw [List.mem_singleton.mp hx]; exact Or.inl h0
    · intro x hx
      simp only [List.head?_cons, Option.some.injEq] at hx
      rw [← hx]; exact h0
    · intro x hx
      simp only [List.getLast?_singleton, Option.some.injEq] at hx
      rw [← hx]; exact h0

theorem labels_of_units (units : List GoString)
    (h : ∀ u ∈ units, ∃ l : GoString, IsLabel l ∧ u = l ++ str ".") :
    ∃ labels : List GoString, labels.length = units.length ∧ (∀ l ∈ labels, IsLabel l) ∧
      units = labels.map (fun l => l ++ str ".") := by
  induction units with
  | nil => exact ⟨[], rfl, by simp, rfl⟩
  | cons u rest ih =>
    obtain ⟨l, hl, hu⟩ := h u (List.mem_cons_self _ _)
    obtain ⟨labels, hlen, hall, hmap⟩ := ih (fun x hx => h x (List.mem_cons_of_mem _ hx))
    refine ⟨l :: labels, by simp [hlen], ?_, by simp [hu, ← hmap]⟩
    intro x hx
    rcases List.mem_cons.mp hx with hx | hx
    · rw [hx]; exact hl
    · exact hall x hx

theorem domainPart_IsDomainName (t : GoString) (h : Regex.Matches domainPart t) :
    IsDomainName t := by
  obtain ⟨front, back, ht, hfront, hback⟩ := Matches_cat _ _ t h
  obtain ⟨units, hlen, hflat, hall⟩ := Matches_plus _ front hfront
  obtain ⟨labels, hllen, hlall, hmap⟩ := labels_of_units units (by
    intro u hu
    obtain ⟨l, dot, hul, hl, hdot⟩ := Matches_cat _ _ u (hall u hu)
    exact ⟨l, labelPart_IsLabel l hl, by rw [hul, Matches_lit _ dot hdot]⟩)
  have hne : labels ≠ [] := by
    intro hnil
    rw [hnil] at hllen
    simp at hllen
    omega
  have hdots : ∀ dot : GoString, Regex.Matches (Regex.opt (.lit (str "."))) dot →
      dot = [] ∨ dot = str "." := by
    intro dot hd
    rcases Matches_opt _ dot hd with hd | hd
    · exact Or.inr (Matches_lit _ dot hd)
    · exact Or.inl hd
  rcases Matches_alt _ _ back hback with hb | hb
  · obtain ⟨top, dot, hbk, htop, hdot⟩ := Matches_cat _ _ back hb
    obtain ⟨us, hlo, -, hfl, hus⟩ := Matches_rep _ 2 6 top htop
    exact ⟨labels, top, dot, hne, hlall,
      ⟨us, hfl, hlo, fun u hu => Or.inl (Or.inl (letterClass_unit u (hus u hu)))⟩,
      hdots dot hdot, by rw [ht, hflat, hmap, hbk, List.append_assoc]⟩
  · obtain ⟨top, dot, hbk, htop, hdot⟩ := Matches_cat _ _ back hb
    obtain ⟨us, hlo, hfl, hus⟩ := Matches_atLeast _ 2 top htop
    exact ⟨labels, top, dot, hne, hlall,
      ⟨us, hfl, hlo, fun u hu => alnumHyphenClass_unit u (hus u hu)⟩,
      hdots dot hdot, by rw [ht, hflat, hmap, hbk, List.append_assoc]⟩

theorem singletons_flatten (P : Byte → Bool) (units : List GoString)
    (h : ∀ u ∈ units, ∃ c : Byte, u = [c] ∧ P c = true) :
    units.flatten.length = units.length ∧ ∀ c ∈ units.flatten, P c = true := by
  induction units with
  | nil => simp
  | cons u rest ih =>
    obtain ⟨c, hu, hc⟩ := h u (List.mem_cons_self _ _)
    obtain ⟨hlen, hall⟩ := ih (fun x hx => h x (List.mem_cons_of_mem _ hx))
    subst hu
    refine ⟨by simp [hlen], ?_⟩
    intro b hb
    simp only [List.flatten_cons, List.singleton_append, List.mem_cons] at hb
    rcases hb with hb | hb
    · rw [hb]; exact hc
    · exact hall b hb

theorem digits13 (t : GoString) (h : Regex.Matches (digitClass.rep 1 3) t) : IsDigits13 t := by
  obtain ⟨units, hlo, hhi, hflat, hall⟩ := Matches_rep _ 1 3 t h
  obtain ⟨hlen, hdig⟩ := singletons_flatten isDigit units
    (fun u hu => Matches_cls _ u (hall u hu))
  rw [hflat]
  exact ⟨by omega, by omega, hdig⟩

theorem ipv4Part_IsDottedQuad (t : GoString) (h : Regex.Matches ipv4Part t) :
    IsDottedQuad t := by
  obtain ⟨a, r1, h1, ha, hr1⟩ := Matches_cat _ _ t h
  obtain ⟨d1, r2, h2, hd1, hr2⟩ := Matches_cat _ _ r1 hr1
  obtain ⟨b, r3, h3, hb, hr3⟩ := Matches_cat _ _ r2 hr2
  obtain ⟨d2, r4, h4, hd2, hr4⟩ := Matches_cat _ _ r3 hr3
  obtain ⟨c, r5, h5, hc, hr5⟩ := Matches_cat _ _ r4 hr4
  obtain ⟨d3, d, h6, hd3, hd⟩ := Matches_cat _ _ r5 hr5
  refine ⟨a, b, c, d, digits13 a ha, digits13 b hb, digits13 c hc, digits13 d hd, ?_⟩
  rw [h1, h2, h3, h4, h5, h6, Matches_lit _ d1 hd1, Matches_lit _ d2 hd2, Matches_lit _ d3 hd3]
  simp

theorem hostPart_IsHost (t : GoString) (h : Regex.Matches hostPart t) : IsHost t := by
  rcases Matches_alt _ _ t h with h | h
  · exact Or.inl (domainPart_IsDomainName t h)
  · rcases Matches_alt _ _ t h with h | h
    · exact Or.inr (Or.inl (foldWord_EqualFold _ t h))
    · exact Or.inr (Or.inr (ipv4Part_IsDottedQuad t h))

theorem portPart_IsPort (t : GoString) (h : Regex.Matches portPart t) : IsPort t := by
  rcases Matches_opt _ t h with h | h
  · obtain ⟨colon, ds, ht, hcolon, hds⟩ := Matches_cat _ _ t h
    obtain ⟨units, hlen, hflat, hall⟩ := Matches_plus _ ds hds
    obtain ⟨hl, hdig⟩ := singletons_flatten isDigit units
      (fun u hu => Matches_cls _ u (hall u hu))
    refine Or.inr ⟨ds, ?_, by rw [hflat]; exact hdig, by rw [ht, Matches_lit _ colon hcolon]⟩
    intro hnil
    rw [hflat] at hnil
    rw [hnil] at hl
    simp at hl
    omega
  · exact Or.inl h

theorem pathPart_IsPathQuery (t : GoString) (h : Regex.Matches pathPart t) :
    IsPathQuery isSpace t := by
  rcases Matches_alt _ _ t h with h | h
  · rcases Matches_opt _ t h with h | h
    · have hslash : str "/" = [47] := by decide
      refine Or.inr ⟨47, [], by rw [Matches_lit _ t h, hslash], Or.inl rfl, ?_⟩
      rw [Matches_lit _ t h, hslash]
      intro b hb
      rw [List.mem_singleton.mp hb]
      decide
    · exact Or.inl h
  · obtain ⟨first, rest, ht, hfirst, hrest⟩ := Matches_cat _ _ t h
    obtain ⟨c, hc, hp⟩ := Matches_cls _ first hfirst
    simp only [Bool.or_eq_true, decide_eq_true_eq] at hp
    obtain ⟨units, -, hflat, hall⟩ := Matches_plus _ rest hrest
    obtain ⟨-, hns⟩ := singletons_flatten (fun b => !isSpace b) units
      (fun u hu => Matches_cls _ u (hall u hu))
    refine Or.inr ⟨c, rest, by rw [ht, hc]; rfl, hp, ?_⟩
    intro b hb
    rw [ht, hc] at hb
    simp only [List.singleton_append, List.mem_cons] at hb
    rcases hb with hb | hb
    · rw [hb]
      rcases hp with hp | hp <;> rw [hp] <;> decide
    · have := hns b (by rw [← hflat]; exact hb)
      simpa using this

theorem MatchString_urlPattern_shape (url : GoString) (h : Regex.Matches urlPattern url) :
    URLShape isSpace url := by
  obtain ⟨scheme, r1, h1, hscheme, hr1⟩ := Matches_cat _ _ url h
  obtain ⟨sep, r2, h2, hsep, hr2⟩ := Matches_cat _ _ r1 hr1
  obtain ⟨host, r3, h3, hhost, hr3⟩ := Matches_cat _ _ r2 hr2
  obtain ⟨port, path, h4, hport, hpath⟩ := Matches_cat _ _ r3 hr3
  have hH := hostPart_IsHost host hhost
  refine ⟨scheme, host, port, path, ?_, schemePart_IsScheme scheme hscheme, ?_, hH,
    portPart_IsPort port hport, pathPart_IsPathQuery path hpath⟩
  · rw [h1, h2, h3, h4, Matches_lit _ sep hsep]
    simp
  · intro hnil
    have hlen : (0 : Nat) ∈ hostPart.ends ([] ++ []) := by
      have := (ends_complete_aux hostPart host hhost).1 []
      rw [hnil] at this
      exact this
    revert hlen
    decide

set_option maxRecDepth 100000 in
theorem alnum_not_separator : ∀ c : Byte, isLetter c = true ∨ isDigit c = true →
    c ≠ 58 ∧ c ≠ 47 ∧ c ≠ 63 := by
  decide

theorem IsAlnumUnit_first (u : GoString) (h : IsAlnumUnit u) :
    ∃ (c : Byte) (tail : GoString), u = c :: tail ∧ c ≠ 58 ∧ c ≠ 47 ∧ c ≠ 63 := by
  rcases h with (⟨c, hu, hc⟩ | hu | hu) | ⟨c, hu, hc⟩
  · exact ⟨c, [], hu, alnum_not_separator c (Or.inl hc)⟩
  · exact ⟨0xC5, [0xBF], hu, by decide⟩
  · exact ⟨0xE2, [0x84, 0xAA], hu, by decide⟩
  · exact ⟨c, [], hu, alnum_not_separator c (Or.inr hc)⟩

/-- A host begins with a byte that is none of `:`, `/`, `?`. -/
theorem IsHost_first (h : GoString) (hh : IsHost h) :
    ∃ (c : Byte) (tail : GoString), h = c :: tail ∧ c ≠ 58 ∧ c ≠ 47 ∧ c ≠ 63 := by
  rcases hh with hd | hl | hq
  · obtain ⟨labels, top, dot, hne, hall, -, -, hh⟩ := hd
    cases labels with
    | nil => exact absurd rfl hne
    | cons l ls =>
      obtain ⟨units, hl, hlen, -, -, hhead, -⟩ := hall l (List.mem_cons_self _ _)
      cases units with
      | nil => simp at hlen
      | cons u us =>
        obtain ⟨c, tail, hu, hc⟩ := IsAlnumUnit_first u (hhead u rfl)
        refine ⟨c, tail ++ us.flatten ++ str "." ++
          (ls.map (fun l => l ++ str ".")).flatten ++ top ++ dot, ?_, hc⟩
        rw [hh, hl, hu]
        simp
  · obtain ⟨units, hflat, hall⟩ := hl
    have hword : str "localhost" = 108 :: str "ocalhost" := by decide
    rw [hword] at hall
    cases hall with
    | cons hu hrest =>
      rename_i u us
      rcases hu with hu | hu | ⟨hc, -⟩ | ⟨hc, -⟩
      · exact ⟨108, us.flatten, by rw [hflat, hu]; rfl, by decide⟩
      · exact ⟨108 - 32, us.flatten, by rw [hflat, hu]; rfl, by decide⟩
      · exact absurd hc (by decide)
      · exact absurd hc (by decide)
  · obtain ⟨a, b, c, d, ⟨ha1, -, ha3⟩, -, -, -, hh⟩ := hq
    cases a with
    | nil => simp at ha1
    | cons x xs =>
      refine ⟨x, xs ++ str "." ++ b ++ str "." ++ c ++ str "." ++ d, by rw [hh]; simp,
        alnum_not_separator x (Or.inr (ha3 x (List.mem_cons_self _ _)))⟩

theorem EqualFold_bytes (t w : GoString) (h : EqualFold t w) :
    ∀ b ∈ t, ∃ c ∈ w, b = c ∨ b = c - 32 ∨ b ∈ longS ∨ b ∈ kelvin := by
  obtain ⟨units, hflat, hall⟩ := h
  subst hflat
  induction hall with
  | nil => intro b hb; simp at hb
  | @cons u c us ws hu _ ih =>
    intro b hb
    simp only [List.flatten_cons, List.mem_append] at hb
    rcases hb with hb | hb
    · refine ⟨c, List.mem_cons_self _ _, ?_⟩
      rcases hu with hu | hu | ⟨-, hu⟩ | ⟨-, hu⟩
      · rw [hu] at hb; exact Or.inl (List.mem_singleton.mp hb)
      · rw [hu] at hb; exact Or.inr (Or.inl (List.mem_singleton.mp hb))
      · rw [hu] at hb; exact Or.inr (Or.inr (Or.inl hb))
      · rw [hu] at hb; exact Or.inr (Or.inr (Or.inr hb))
    · obtain ⟨c2, hc2, hb2⟩ := ih b hb
      exact ⟨c2, List.mem_cons_of_mem _ hc2, hb2⟩

set_option maxRecDepth 100000 in
theorem lower_not_colon : ∀ c : Byte, isLower c = true → c ≠ 58 ∧ c - 32 ≠ 58 := by
  decide

theorem EqualFold_no_colon (t w : GoString) (hw : ∀ c ∈ w, isLower c = true)
    (h : EqualFold t w) : (58 : Byte) ∉ t := by
  intro hmem
  obtain ⟨c, hc, hb⟩ := EqualFold_bytes t w h 58 hmem
  obtain ⟨h1, h2⟩ := lower_not_colon c (hw c hc)
  rcases hb with hb | hb | hb | hb
  · exact h1 hb.symm
  · exact h2 hb.symm
  · revert hb; decide
  · revert hb; decide

set_option maxRecDepth 100000 in
theorem IsScheme_no_colon (t : GoString) (h : IsScheme t) : (58 : Byte) ∉ t := by
  rcases h with h | h | h | h
  · exact EqualFold_no_colon t _ (by decide) h
  · exact EqualFold_no_colon t _ (by decide) h
  · exact EqualFold_no_colon t _ (by decide) h
  · exact EqualFold_no_colon t _ (by decide) h

theorem split_at_first (k : Byte) (x : GoString) :
    ∀ (x2 y y2 : GoString), k ∉ x → k ∉ x2 → x ++ k :: y = x2 ++ k :: y2 →
      x = x2 ∧ y = y2 := by
  induction x with
  | nil =>
    intro x2 y y2 _ hx2 h
    cases x2 with
    | nil => simpa using h
    | cons c cs =>
      simp only [List.nil_append, List.cons_append, List.cons.injEq] at h
      exact absurd (by rw [h.1]; exact List.mem_cons_self _ _) hx2
  | cons a rest ih =>
    intro x2 y y2 hx hx2 h
    cases x2 with
    | nil =>
      simp only [List.nil_append, List.cons_append, List.cons.injEq] at h
      exact absurd (by rw [← h.1]; exact List.mem_cons_self _ _) hx
    | cons c cs =>
      simp only [List.cons_append, List.cons.injEq] at h
      obtain ⟨h1, h2⟩ := ih cs y y2 (fun hm => hx (List.mem_cons_of_mem _ hm))
        (fun hm => hx2 (List.mem_cons_of_mem _ hm)) h.2
      exact ⟨by rw [h.1, h1], h2⟩

set_option maxRecDepth 100000 in
/-- A letter or digit ends with a byte that is neither `-` nor `.`. -/
theorem IsAlnumUnit_last (u : GoString) (h : IsAlnumUnit u) :
    ∃ (front : GoString) (c : Byte), u = front ++ [c] ∧ c ≠ 45 ∧ c ≠ 46 := by
  have hsep : ∀ c : Byte, isLetter c = true ∨ isDigit c = true → c ≠ 45 ∧ c ≠ 46 := by
    decide
  rcases h with (⟨c, hu, hc⟩ | hu | hu) | ⟨c, hu, hc⟩
  · exact ⟨[], c, hu, hsep c (Or.inl hc)⟩
  · exact ⟨[0xC5], 0xBF, hu, by decide⟩
  · exact ⟨[0xE2, 0x84], 0xAA, hu, by decide⟩
  · exact ⟨[], c, hu, hsep c (Or.inr hc)⟩

/-- A label ends with a byte that is neither `-` nor `.`. -/
theorem IsLabel_last (l : GoString) (h : IsLabel l) :
    ∃ (front : GoString) (c : Byte), l = front ++ [c] ∧ c ≠ 45 ∧ c ≠ 46 := by
  obtain ⟨units, hl, hlen, -, -, -, hlast⟩ := h
  rcases List.eq_nil_or_concat units with hnil | ⟨us, u, hus⟩
  · rw [hnil] at hlen
    simp at hlen
  · obtain ⟨front, c, hu, hc⟩ := IsAlnumUnit_last u (hlast u (by rw [hus]; simp))
    refine ⟨us.flatten ++ front, c, ?_, hc⟩
    rw [hl, hus, hu]
    simp

set_option maxRecDepth 100000 in
/-- A host in the words of the claim does not end with a hyphen. -/
theorem IsHostClaim_last (front : GoString) : ¬ IsHostClaim (front ++ [45]) := by
  rintro (hd | hl | hq)
  · obtain ⟨labels, top, dot, -, htop, hdot, hh⟩ := hd
    obtain ⟨f2, c, hc, hc45, -⟩ := IsLabel_last top htop
    rcases hdot with hdot | hdot
    · rw [hdot, hc, List.append_nil, ← List.append_assoc] at hh
      have := List.append_inj_right' hh rfl
      simp only [List.cons.injEq, and_true] at this
      exact hc45 this.symm
    · have hdot2 : str "." = [46] := by decide
      rw [hdot, hdot2] at hh
      have := List.append_inj_right' hh rfl
      exact absurd this (by decide)
  · have hmem : (45 : Byte) ∈ front ++ [45] := by simp
    obtain ⟨c, hc, hb⟩ := EqualFold_bytes _ _ hl 45 hmem
    have hword : ∀ c ∈ str "localhost", ¬ ((45 : Byte) = c ∨ (45 : Byte) = c - 32) := by
      decide
    rcases hb with hb | hb | hb | hb
    · exact hword c hc (Or.inl hb)
    · exact hword c hc (Or.inr hb)
    · revert hb; decide
    · revert hb; decide
  · obtain ⟨a, b, c, d, ⟨-, -, ha⟩, ⟨-, -, hb⟩, ⟨-, -, hc⟩, ⟨-, -, hd⟩, hh⟩ := hq
    have hmem : (45 : Byte) ∈ front ++ [45] := by simp
    have hdot2 : str "." = [46] := by decide
    rw [hh, hdot2] at hmem
    simp only [List.mem_append, List.mem_singleton] at hmem
    have hdig : isDigit 45 = false := by decide
    rcases hmem with (((((h | h) | h) | h) | h) | h) | h
    · rw [ha 45 h] at hdig; exact absurd hdig (by simp)
    · exact absurd h (by decide)
    · rw [hb 45 h] at hdig; exact absurd hdig (by simp)
    · exact absurd h (by decide)
    · rw [hc 45 h] at hdig; exact absurd hdig (by simp)
    · exact absurd h (by decide)
    · rw [hd 45 h] at hdig; exact absurd hdig (by simp)

set_option maxRecDepth 100000 in
/-- A text `http://` followed by a text without `:`, `/` and `?` that ends with
a hyphen does not have the URL shape of the claim, whatever counts as white
space. -/
theorem not_URLShapeClaim_of_last_hyphen (white : Byte → Bool) (front : GoString)
    (hsep : ∀ c ∈ front, c ≠ 58 ∧ c ≠ 47 ∧ c ≠ 63) :
    ¬ URLShapeClaim white (str "http://" ++ (front ++ [45])) := by
  rintro ⟨scheme, host, port, path, hurl, hscheme, -, hhost, hport, hpath⟩
  have hsep2 : ∀ c ∈ front ++ [45], c ≠ 58 ∧ c ≠ 47 ∧ c ≠ 63 := by
    intro c hc
    rcases List.mem_append.mp hc with hc | hc
    · exact hsep c hc
    · rw [List.mem_singleton.mp hc]; decide
  have hpre : str "http://" = str "http" ++ 58 :: str "//" := by decide
  have hsepc : str "://" = 58 :: str "//" := by decide
  have heq : str "http" ++ 58 :: (str "//" ++ (front ++ [45])) =
      scheme ++ 58 :: (str "//" ++ (host ++ port ++ path)) := by
    rw [hpre, hsepc] at hurl
    simpa using hurl
  obtain ⟨-, htail⟩ := split_at_first 58 (str "http") scheme _ _ (by decide)
    (IsScheme_no_colon scheme hscheme) heq
  have hrest : front ++ [45] = host ++ port ++ path := List.append_cancel_left htail
  have hpath2 : path = [] := by
    rcases hpath with hp | ⟨c, rest, hp, hc, -⟩
    · exact hp
    · have hmem : c ∈ front ++ [45] := by rw [hrest, hp]; simp
      obtain ⟨-, h47, h63⟩ := hsep2 c hmem
      rcases hc with hc | hc
      · exact absurd hc h47
      · exact absurd hc h63
  have hport2 : port = [] := by
    rcases hport with hp | ⟨ds, -, -, hp⟩
    · exact hp
    · have hcolon : str ":" = [58] := by decide
      have hmem : (58 : Byte) ∈ front ++ [45] := by rw [hrest, hp, hcolon]; simp
      exact absurd rfl (hsep2 58 hmem).1
  rw [hpath2, hport2, List.append_nil, List.append_nil] at hrest
  rw [← hrest] at hhost
  exact IsHostClaim_last front hhost

/-- C11, as amended. `IsValidURL` accepts a string only if it has this shape: a
scheme that is one of http, https, ftp, ftps (case ignored), then `://`, then a
non-empty host, then an optional `:` and decimal port, then an optional path or
query that begins with `/` or `?` and holds none of the five characters tab,
newline, form feed, carriage return, space (the class `\s` of package
`regexp`). The host is a domain name, `localhost` (case ignored), or four
groups of one to three digits separated by dots; a domain name is one or more
labels (1 to 63 letters, digits or hyphens, the first and the last a letter or
digit), each followed by a dot, then a last part of two or more letters, digits
or hyphens, then an optional dot. Case is ignored as the flag `(?i)` ignores
it: besides the ASCII letters, U+017F counts as `s` and U+212A as `k`. Every
string that holds one of those five characters, every string that does not
begin with one of the four schemes and `://`, and every string whose host is
empty (nothing, or `:`, `/` or `?` right after `://`) is rejected. -/
theorem IsValidURL_only_url_shape (url : GoString) :
    (IsValidURL url = true → URLShape isSpace url) ∧
    ((∃ c ∈ url, isSpace c = true) → IsValidURL url = false) ∧
    ((¬ ∃ scheme rest : GoString, IsScheme scheme ∧ url = scheme ++ str "://" ++ rest) →
      IsValidURL url = false) ∧
    (∀ scheme rest : GoString, IsScheme scheme → url = scheme ++ str "://" ++ rest →
      (rest = [] ∨ ∃ (c : Byte) (tail : GoString), rest = c :: tail ∧
        (c = 58 ∨ c = 47 ∨ c = 63)) →
      IsValidURL url = false) := by
  have hshape : IsValidURL url = true → URLShape isSpace url := fun h =>
    MatchString_urlPattern_shape url (MatchString_sound urlPattern url h)
  refine ⟨hshape, ?_, ?_, ?_⟩
  · rintro ⟨c, hc, hsp⟩
    cases hv : IsValidURL url with
    | false => rfl
    | true =>
      have := Matches_avoids isSpace urlPattern url (MatchString_sound urlPattern url hv)
        urlPattern_avoids_space c hc
      rw [hsp] at this
      exact absurd this (by decide)
  · intro hno
    cases hv : IsValidURL url with
    | false => rfl
    | true =>
      obtain ⟨scheme, host, port, path, hurl, hscheme, -⟩ := hshape hv
      exact absurd ⟨scheme, host ++ port ++ path, hscheme, by rw [hurl]; simp⟩ hno
  · intro scheme rest hscheme hurl hrest
    cases hv : IsValidURL url with
    | false => rfl
    | true =>
      obtain ⟨scheme2, host, port, path, hurl2, hscheme2, -, hhost, -⟩ := hshape hv
      obtain ⟨c, tail, hc, hc1, hc2, hc3⟩ := IsHost_first host hhost
      have hsep : str "://" = 58 :: str "//" := by decide
      have heq : scheme2 ++ 58 :: (str "//" ++ (host ++ port ++ path)) =
          scheme ++ 58 :: (str "//" ++ rest) := by
        have : scheme2 ++ str "://" ++ host ++ port ++ path = scheme ++ str "://" ++ rest := by
          rw [← hurl2, ← hurl]
        rw [hsep] at this
        simpa using this
      obtain ⟨-, htail⟩ := split_at_first 58 scheme2 scheme _ _
        (IsScheme_no_colon scheme2 hscheme2) (IsScheme_no_colon scheme hscheme) heq
      have hrest2 : rest = c :: (tail ++ port ++ path) := by
        have := List.append_cancel_left htail
        rw [← this, hc]
        simp
      rcases hrest with hnil | ⟨c2, tail2, hr, hsepc⟩
      · rw [hnil] at hrest2
        simp at hrest2
      · rw [hr] at hrest2
        simp only [List.cons.injEq] at hrest2
        rw [hrest2.1] at hsepc
        rcases hsepc with h | h | h
        · exact absurd h hc1
        · exact absurd h hc2
        · exact absurd h hc3

set_option maxRecDepth 100000 in
/-- C11, the claim as stated fails, in two ways. A string with a vertical tab in
its path, and a string with a no-break space (U+00A0) in its path, both white
space characters, are accepted, because the class `\S` of package `regexp`
excludes only tab, newline, form feed, carriage return and space. The strings
`http://a.--` and `http://a.-b-` are accepted although they do not have the URL
shape of the claim, whatever counts as white space: the pattern takes any two
or more letters, digits or hyphens for the last part of a domain name, and
`--` and `-b-` are not labels. -/
theorem IsValidURL_accepts_other_white_space :
    isWhiteSpace 11 = true ∧
    (11 : Byte) ∈ str "http://localhost/a" ++ [11] ++ str "b" ∧
    IsValidURL (str "http://localhost/a" ++ [11] ++ str "b") = true ∧
    noBreakSpace <:+: str "https://example.com/a" ++ noBreakSpace ++ str "b" ∧
    IsValidURL (str "https://example.com/a" ++ noBreakSpace ++ str "b") = true ∧
    IsValidURL (str "http://a.--") = true ∧
    (∀ white : Byte → Bool, ¬ URLShapeClaim white (str "http://a.--")) ∧
    ¬ IsLabel (str "--") ∧
    IsValidURL (str "http://a.-b-") = true ∧
    (∀ white : Byte → Bool, ¬ URLShapeClaim white (str "http://a.-b-")) :=
  ⟨by decide, by decide, by decide,
    ⟨str "https://example.com/a", str "b", rfl⟩, by decide, by decide,
    fun white => not_URLShapeClaim_of_last_hyphen white (str "a.-") (by decide),
    fun h => by
      obtain ⟨front, c, hc, hc45, -⟩ := IsLabel_last (str "--") h
      have h2 : str "--" = [45] ++ [45] := by decide
      rw [h2] at hc
      have := List.append_inj_right' hc rfl
      simp only [List.cons.injEq, and_true] at this
      exact hc45 this.symm,
    by decide,
    fun white => not_URLShapeClaim_of_last_hyphen white (str "a.-b") (by decide)⟩

set_option maxRecDepth 100000 in
theorem IsValidURL_examples :
    IsValidURL (str "https://example.com/app.js") = true ∧
    IsValidURL (str "HTTP://LocalHost:8080/x?y=1") = true ∧
    IsValidURL (str "ftps://10.0.0.1") = true ∧
    IsValidURL (str "http://a.example.co.uk./") = true ∧
    IsValidURL (str "https://example.com?") = false ∧
    IsValidURL (str "gopher://example.com/") = false ∧
    IsValidURL (str "http:///path") = false ∧
    IsValidURL (str "http://example.com/a b") = false ∧
    IsValidURL (str "http://example") = false ∧
    IsValidURL (str "http" ++ longS ++ str "://example.com") = true := by
  decide

end JSMon
